import Mathlib

/-!
# textcat: the command-line program

A shallow embedding of `src/textcat/textcat.go` (the function `main`) and proofs
about the calls it makes on the classifier library.

Go strings are modelled as Lean strings. The string operations that `main` uses
(`strings.Split` at a comma, `path.Base` at slashes, `strings.Join`) cut and glue
at ASCII characters, so they act on code points as they act on bytes.

The classifier library (`textcat.NewTextCat`, `AddLanguage`, `EnableAllRawLanguages`,
`EnableAllUtf8Languages`, `Classify`) is a parameter of `main`: a record of
operations on a classifier state. A run of `main` is the list of calls it makes,
each with the classifier as it is when the call is made, what it writes to standard
output, and how it ends.
-/

namespace Textcat

/-! ## Go library functions used by `main` -/

/-- The function `strings.Split(s, ",")` on the characters of `s`: the pieces between the
commas, in order; a string without comma is the single piece. -/
def splitCommaChars : List Char → List (List Char)
  | [] => [[]]
  | c :: cs =>
    if c = ',' then [] :: splitCommaChars cs
    else
      match splitCommaChars cs with
      | [] => [[c]]
      | piece :: more => (c :: piece) :: more

/-- The function `strings.Split(s, ",")`. -/
def Split (s : String) : List String :=
  (splitCommaChars s.data).map String.mk

/-- The first loop of `path.Base`: strip trailing slashes. The argument is the path reversed. -/
def dropSlashes : List Char → List Char
  | [] => []
  | c :: cs => if c = '/' then dropSlashes cs else c :: cs

/-- The second step of `path.Base`: keep what follows the last slash. The argument is the
path reversed, the result is reversed too. -/
def lastElement : List Char → List Char
  | [] => []
  | c :: cs => if c = '/' then [] else c :: lastElement cs

/-- The function `path.Base` of the Go library on characters: `.` for the empty path, then
trailing slashes are stripped, what follows the last slash is kept, and a path of slashes
only gives `/`. -/
def baseChars (p : List Char) : List Char :=
  if p = [] then ['.']
  else
    let q := lastElement (dropSlashes p.reverse)
    if q = [] then ['/'] else q.reverse

/-- The function `path.Base`. -/
def Base (p : String) : String :=
  String.mk (baseChars p.data)

/-- The function `strings.Join(elems, sep)`. -/
def Join : List String → String → String
  | [], _ => ""
  | [a], _ => a
  | a :: b :: rest, sep => a ++ sep ++ Join (b :: rest) sep

/-! ## The command line and the environment -/

/-- The parsed command line: the flags declared in the `var` block and `flag.Args()`. -/
structure Flags where
  opt_b : Bool
  opt_r : Bool
  opt_l : Bool
  opt_f : String
  opt_p : String
  args : List String

/-- What the program can observe of the outside world. A `none` stands for a call that
returns a non-nil error. -/
structure Env where
  /-- the value of `util.IsTerminal(os.Stdin)` -/
  isTerminal : Bool
  /-- the functions `os.Open` followed by `ioutil.ReadAll` on a file name -/
  readFile : String → Option String
  /-- the call `ioutil.ReadAll(os.Stdin)` -/
  readStdin : Option String
  /-- the function `util.NewLinesReaderFromFile` and the lines its `ReadLines` delivers -/
  linesFromFile : String → Option (List String)
  /-- the lines delivered by a `util.LinesReader` on a buffer holding the given string -/
  linesFromText : String → List String
  /-- the lines delivered by a `util.LinesReader` on `os.Stdin` -/
  linesFromStdin : List String

/-- The operations of the classifier library that `main` calls, on a classifier state `σ`.
An error is carried as its text. -/
structure Library (σ : Type) where
  NewTextCat : σ
  AddLanguage : σ → String → String → Except String σ
  EnableAllRawLanguages : σ → σ
  EnableAllUtf8Languages : σ → σ
  Classify : σ → String → Except String (List String)

/-- The calls of a run that the claims speak about. -/
inductive Event where
  | addLanguage (label source : String)
  | enableAllRaw
  | enableAllUtf8
  | classify (text : String)
  | openFile (name : String)
  | readStdin
  deriving DecidableEq

/-- How a run of `main` ends. -/
inductive Exit where
  /-- the usage message was printed and `main` returned (line 58) -/
  | usage
  /-- the call `util.CheckErr` got a non-nil error and ended the program -/
  | checkErr
  /-- the function `main` ran to its end -/
  | done
  deriving DecidableEq

/-- A step of a run: a call, together with the classifier as it is when the call is made
(for a call on the classifier, the receiver of the call). -/
structure Step (σ : Type) where
  tc : σ
  call : Event
  deriving DecidableEq

/-- A run of `main`: the steps in the order they were made, the text written to standard
output, and how the run ended. -/
structure Run (σ : Type) where
  steps : List (Step σ)
  stdout : String
  exit : Exit

/-- The calls of a run, in the order they were made. -/
def Run.trace {σ : Type} (r : Run σ) : List Event :=
  r.steps.map Step.call

/-- The call is an `AddLanguage` call. -/
def Event.isAdd : Event → Bool
  | Event.addLanguage _ _ => true
  | _ => false

/-- The call is `EnableAllRawLanguages` or `EnableAllUtf8Languages`. -/
def Event.isEnable : Event → Bool
  | Event.enableAllRaw => true
  | Event.enableAllUtf8 => true
  | _ => false

/-- The call is a `Classify` call. -/
def Event.isClassify : Event → Bool
  | Event.classify _ => true
  | _ => false

/-- The call reads the input: the file of `-f` or standard input. -/
def Event.isRead : Event → Bool
  | Event.openFile _ => true
  | Event.readStdin => true
  | _ => false

/-- The order of two calls `x`, `y` of a run, `x` made before `y`, is allowed: an
`AddLanguage` call follows no enable call and no `Classify` call, and an enable call
follows no `Classify` call. -/
def inOrder (x y : Event) : Prop :=
  (y.isAdd = true → x.isEnable = false ∧ x.isClassify = false) ∧
  (y.isEnable = true → x.isClassify = false)

/-! ## The function `main` -/

/-- The condition of line 54: no `-f`, no text on the command line and a terminal as
standard input. -/
def usageCheck (env : Env) (fl : Flags) : Bool :=
  fl.opt_f == "" && fl.args.length == 0 && env.isTerminal

/-- Lines 63 to 66: the loop over the elements of `-p`. Each element is registered with
`AddLanguage(path.Base(i), i)`; `util.CheckErr` ends the program at the first error. -/
def addLanguages {σ : Type} (lib : Library σ) :
    σ → List String → List (Step σ) × Except String σ
  | tc, [] => ([], .ok tc)
  | tc, i :: rest =>
    match lib.AddLanguage tc (Base i) i with
    | .error e => ([{ tc := tc, call := Event.addLanguage (Base i) i }], .error e)
    | .ok tc1 =>
      let r := addLanguages lib tc1 rest
      ({ tc := tc, call := Event.addLanguage (Base i) i } :: r.1, r.2)

/-- Lines 61 to 67: a new classifier, and the pattern files of `-p` when it is not empty. -/
def loadPatterns {σ : Type} (lib : Library σ) (fl : Flags) :
    List (Step σ) × Except String σ :=
  if fl.opt_p != "" then addLanguages lib lib.NewTextCat (Split fl.opt_p)
  else ([], .ok lib.NewTextCat)

/-- Lines 68 to 70. -/
def enableRaw {σ : Type} (lib : Library σ) (fl : Flags) (tc : σ) : List (Step σ) × σ :=
  if fl.opt_r || fl.opt_b then
    ([{ tc := tc, call := Event.enableAllRaw }], lib.EnableAllRawLanguages tc)
  else ([], tc)

/-- Lines 71 to 73. -/
def enableUtf8 {σ : Type} (lib : Library σ) (fl : Flags) (tc : σ) : List (Step σ) × σ :=
  if fl.opt_b || !fl.opt_r then
    ([{ tc := tc, call := Event.enableAllUtf8 }], lib.EnableAllUtf8Languages tc)
  else ([], tc)

/-- Lines 68 to 73: the two enable calls. -/
def enableLanguages {σ : Type} (lib : Library σ) (fl : Flags) (tc : σ) : List (Step σ) × σ :=
  let a := enableRaw lib fl tc
  let b := enableUtf8 lib fl a.2
  (a.1 ++ b.1, b.2)

/-- Lines 78 to 86: the lines reader of the `-l` branch, with the calls made to get it.
A `none` is the error of `util.NewLinesReaderFromFile`. -/
def openLines (env : Env) (fl : Flags) : List Event × Option (List String) :=
  if fl.opt_f != "" then ([Event.openFile fl.opt_f], env.linesFromFile fl.opt_f)
  else if fl.args.length > 0 then ([], some (env.linesFromText (Join fl.args " ")))
  else ([Event.readStdin], some env.linesFromStdin)

/-- Lines 100 to 113: the text of the whole-document branch, with the calls made to get it.
A `none` is an error of `os.Open` or `ioutil.ReadAll`. -/
def readText (env : Env) (fl : Flags) : List Event × Option String :=
  if fl.opt_f != "" then ([Event.openFile fl.opt_f], env.readFile fl.opt_f)
  else if fl.args.length > 0 then ([], some (Join fl.args " "))
  else ([Event.readStdin], env.readStdin)

/-- Lines 88 to 94: the body of the loop over the lines, as the text it prints. -/
def printLine {σ : Type} (lib : Library σ) (tc : σ) (line : String) : String :=
  (match lib.Classify tc line with
   | .error e => e
   | .ok l => Join l ",") ++ ("\t" ++ line ++ "\n")

/-- Lines 87 to 95: the loop over the lines: the calls and the output. -/
def classifyLines {σ : Type} (lib : Library σ) (tc : σ) :
    List String → List (Step σ) × String
  | [] => ([], "")
  | line :: rest =>
    let r := classifyLines lib tc rest
    ({ tc := tc, call := Event.classify line } :: r.1, printLine lib tc line ++ r.2)

/-- Lines 115 to 120: the whole text is classified and the answer printed. -/
def classifyText {σ : Type} (lib : Library σ) (tc : σ) (text : String) :
    List (Step σ) × String :=
  ([{ tc := tc, call := Event.classify text }],
    match lib.Classify tc text with
    | .error e => e ++ "\n"
    | .ok l => Join l "\n" ++ "\n")

/-- The calls that read the input, as steps of a run with the classifier `tc`. -/
def readSteps {σ : Type} (tc : σ) (ev : List Event) : List (Step σ) :=
  ev.map (fun c => { tc := tc, call := c })

/-- Lines 75 to 120: what `main` does once the classifier is set up. -/
def classifyInput {σ : Type} (lib : Library σ) (env : Env) (fl : Flags) (tc : σ) : Run σ :=
  if fl.opt_l then
    match openLines env fl with
    | (ev, none) => { steps := readSteps tc ev, stdout := "", exit := Exit.checkErr }
    | (ev, some lines) =>
      let r := classifyLines lib tc lines
      { steps := readSteps tc ev ++ r.1, stdout := r.2, exit := Exit.done }
  else
    match readText env fl with
    | (ev, none) => { steps := readSteps tc ev, stdout := "", exit := Exit.checkErr }
    | (ev, some text) =>
      let r := classifyText lib tc text
      { steps := readSteps tc ev ++ r.1, stdout := r.2, exit := Exit.done }

/-- The function `main` of `textcat.go`. -/
def main {σ : Type} (lib : Library σ) (env : Env) (fl : Flags) : Run σ :=
  if usageCheck env fl then { steps := [], stdout := "", exit := Exit.usage }
  else
    match loadPatterns lib fl with
    | (st, .error _) => { steps := st, stdout := "", exit := Exit.checkErr }
    | (st, .ok tc) =>
      let en := enableLanguages lib fl tc
      let r := classifyInput lib env fl en.2
      { steps := st ++ en.1 ++ r.steps, stdout := r.stdout, exit := r.exit }

/-! ## The classification engine

The library behind `textcat.NewTextCat` (the package `github.com/pebbe/textcat`) is not
part of `textcat.go`, which only calls it. Its operations are modelled from the
specification of the engine (data model, extractor, store, scoring, selection, profile file
format). Symbols are natural numbers: byte values for the kind `raw`, code points for the
kind `utf8`. -/

/-- Modelled from the spec: the two kinds of profile (the library's types are missing). -/
inductive Kind where
  | raw
  | utf8
  deriving DecidableEq

/-- Modelled from the spec: for the library's missing data model, an n-gram, a sequence of 1
to 5 symbols. -/
abbrev Ngram := List Nat

/-- Modelled from the spec: for the library's missing data model, a profile, an ordered
sequence of (n-gram, rank) pairs. -/
abbrev Profile := List (Ngram × Nat)

/-- Modelled from the spec: for the library's missing data model, a stored profile entry
(label, kind, Profile, enabled-flag). -/
structure Entry where
  label : String
  kind : Kind
  profile : Profile
  enabled : Bool
  deriving DecidableEq

/-- Modelled from the spec: the profile store, the entries in the order of registration (the
library's store is missing). -/
abbrev Store := List Entry

/-- Modelled from the spec: for the library's missing data model, the constant MAX_PROFILE
(default 400). -/
def MAX_PROFILE : Nat := 400

/-- Modelled from the spec: for the library's missing data model, the constant
MAX_CANDIDATES = 5. -/
def MAX_CANDIDATES : Nat := 5

/-- Modelled from the spec: for the library's missing data model, the constant MIN_DOCSIZE =
25. -/
def MIN_DOCSIZE : Nat := 25

/-- Modelled from the spec: for the library's missing data model, the test `d ≤ d_min ×
THRESHOLD_FACTOR` with THRESHOLD_FACTOR = 1.03, in exact arithmetic (the threshold is
inclusive). -/
def withinThreshold (dmin d : Nat) : Bool :=
  decide (100 * d ≤ 103 * dmin)

/-! ### The n-gram extractor (§4.1) -/

/-- Modelled from the spec: for the library's missing extractor, the bytes of the UTF-8
encoding of a code point, the symbols of the kind `raw`. -/
def utf8Bytes (c : Nat) : List Nat :=
  if c < 128 then [c]
  else if c < 2048 then [192 + c / 64, 128 + c % 64]
  else if c < 65536 then [224 + c / 4096, 128 + c / 64 % 64, 128 + c % 64]
  else [240 + c / 262144, 128 + c / 4096 % 64, 128 + c / 64 % 64, 128 + c % 64]

/-- Modelled from the spec: the symbols of a text for a kind (the library's extractor is
missing): bytes for `raw`, case-folded code points for `utf8`. The case folding table is the
parameter `fold`. A text is a Lean string, which is valid UTF-8, so no byte has to be
replaced by the replacement code point. -/
def symbols (fold : Nat → Nat) : Kind → String → List Nat
  | Kind.raw, text => text.data.flatMap (fun c => utf8Bytes c.toNat)
  | Kind.utf8, text => text.data.map (fun c => fold c.toNat)

/-- Modelled from the spec: for the library's missing extractor, a separator is an ASCII
whitespace or control character, or the underscore that stands for a run of them (step 1 and
the split of step 2). -/
def isSeparator (c : Nat) : Bool :=
  decide (c ≤ 32) || c == 127 || c == 95

/-- Modelled from the spec: for the library's missing extractor, steps 1 and 2 of the
extractor, the non-empty words between the separators. The second argument is the word being
read, reversed. -/
def wordsAux : List Nat → List Nat → List (List Nat)
  | [], [] => []
  | [], w => [w.reverse]
  | c :: cs, w =>
    if isSeparator c then
      (if w = [] then wordsAux cs [] else w.reverse :: wordsAux cs [])
    else wordsAux cs (c :: w)

/-- Modelled from the spec: for the library's missing extractor, step 2, the padded form
`"_" + w + "_"` of a word. -/
def padded (w : List Nat) : List Nat :=
  95 :: (w ++ [95])

/-- Modelled from the spec: for the library's missing extractor, step 3, every contiguous
window of length `n` of a padded word; a word shorter than `n` gives nothing. -/
def windows (n : Nat) : List Nat → List Ngram
  | [] => []
  | c :: cs => if n ≤ (c :: cs).length then (c :: cs).take n :: windows n cs else []

/-- Modelled from the spec: for the library's missing extractor, step 3, the n-grams of a
text for n from 1 to 5. -/
def ngrams (fold : Nat → Nat) (k : Kind) (text : String) : List Ngram :=
  (wordsAux (symbols fold k text) []).flatMap
    (fun w => [1, 2, 3, 4, 5].flatMap (fun n => windows n (padded w)))

/-- Modelled from the spec: for the library's missing extractor, step 4, one more occurrence
of an n-gram in the mapping n-gram → count. -/
def bump (g : Ngram) : List (Ngram × Nat) → List (Ngram × Nat)
  | [] => [(g, 1)]
  | (h, c) :: rest => if h = g then (h, c + 1) :: rest else (h, c) :: bump g rest

/-- Modelled from the spec: for the library's missing extractor, lexicographic order of
n-grams, `a ≤ b`. -/
def ngramLe : Ngram → Ngram → Bool
  | [], _ => true
  | _ :: _, [] => false
  | a :: as, b :: bs => decide (a < b) || (a == b && ngramLe as bs)

/-- Modelled from the spec: for the library's missing extractor, step 5, the order (−count,
n-gram) ascending. -/
def rankBefore (x y : Ngram × Nat) : Bool :=
  decide (y.2 < x.2) || (x.2 == y.2 && ngramLe x.1 y.1)

/-- Modelled from the spec: for the library's missing extractor, insertion into a list
sorted by an order. -/
def insertBy {α : Type} (le : α → α → Bool) (a : α) : List α → List α
  | [] => [a]
  | b :: rest => if le a b then a :: b :: rest else b :: insertBy le a rest

/-- Modelled from the spec: for the library's missing extractor, a sort by an order. -/
def sortBy {α : Type} (le : α → α → Bool) : List α → List α
  | [] => []
  | a :: rest => insertBy le a (sortBy le rest)

/-- Modelled from the spec: for the library's missing extractor, step 5, ranks from `r` on,
in order. -/
def assignRanks : Nat → List Ngram → Profile
  | _, [] => []
  | r, g :: rest => (g, r) :: assignRanks (r + 1) rest

/-- Modelled from the spec: the n-gram extractor of §4.1 (missing with the library): the
n-grams are counted, sorted by falling count and then by the n-gram, cut to MAX_PROFILE and
ranked from 0. -/
def extract (fold : Nat → Nat) (k : Kind) (text : String) : Profile :=
  let counts := (ngrams fold k text).foldl (fun acc g => bump g acc) []
  assignRanks 0 (((sortBy rankBefore counts).take MAX_PROFILE).map Prod.fst)

/-! ### Scoring (§4.3) -/

/-- Modelled from the spec: for the library's missing scoring code, the rank of an n-gram in
a profile, if it occurs there. -/
def rankIn (S : Profile) (g : Ngram) : Option Nat :=
  (S.find? (fun e => e.1 == g)).map Prod.snd

/-- Modelled from the spec: for the library's missing scoring code, `penalty(g, S)` for an
n-gram of rank `r` in the input: the absolute rank difference if `g ∈ S`, else MAX_PROFILE.
-/
def penalty (S : Profile) (g : Ngram) (r : Nat) : Nat :=
  match rankIn S g with
  | some rS => if r ≤ rS then rS - r else r - rS
  | none => MAX_PROFILE

/-- Modelled from the spec: the scoring loop of the classifier (missing with the library):
it walks the entries of the input profile and adds up the penalties. -/
def distanceLoop (S : Profile) : Nat → Profile → Nat
  | acc, [] => acc
  | acc, (g, r) :: rest => distanceLoop S (acc + penalty S g r) rest

/-- Modelled from the spec: for the library's missing scoring code, the out-of-place
distance that the classifier computes. -/
def distance (I S : Profile) : Nat :=
  distanceLoop S 0 I

/-- The out-of-place distance in the words of §4.3: the sum, over the n-grams `g` of `I`, of
`|rank_I(g) − rank_S(g)|` when `g` occurs in `S` and of 400 when it does not. -/
def outOfPlace (I S : Profile) : Nat :=
  (I.map (fun e =>
    match S.find? (fun s => s.1 == e.1) with
    | some s => Int.natAbs ((e.2 : Int) - (s.2 : Int))
    | none => 400)).sum

/-! ### The profile loader (§6) and the store (§4.2) -/

/-- Modelled from the spec: for the library's missing loader, the lines of a text, cut at
line feeds. -/
def linesOf : List Char → List (List Char)
  | [] => [[]]
  | c :: cs =>
    if c = '\n' then [] :: linesOf cs
    else
      match linesOf cs with
      | [] => [[c]]
      | line :: more => (c :: line) :: more

/-- Modelled from the spec: a rank, a non-negative decimal integer (the library's loader is
missing). The first argument is the value of the digits read so far. -/
def parseRankAux : Nat → List Char → Option Nat
  | acc, [] => some acc
  | acc, c :: cs =>
    if '0' ≤ c ∧ c ≤ '9' then parseRankAux (10 * acc + (c.toNat - 48)) cs else none

/-- Modelled from the spec: for the library's missing loader and store, a rank, at least one
decimal digit. -/
def parseRank (cs : List Char) : Option Nat :=
  if cs = [] then none else parseRankAux 0 cs

/-- Modelled from the spec: for the library's missing loader and store, an entry line
`<ngram><TAB><rank>` of a profile file, split at its last TAB; the n-gram is not empty. -/
def parseEntry (k : Kind) (line : List Char) : Option (Ngram × Nat) :=
  let rankRev := line.reverse.takeWhile (fun c => c != '\t')
  let rest := line.reverse.dropWhile (fun c => c != '\t')
  match rest with
  | [] => none
  | _ :: gramRev =>
    if gramRev = [] then none
    else
      match parseRank rankRev.reverse with
      | none => none
      | some r =>
        some (match k with
              | Kind.raw => gramRev.reverse.flatMap (fun c => utf8Bytes c.toNat)
              | Kind.utf8 => gramRev.reverse.map (fun c => c.toNat), r)

/-- Modelled from the spec: for the library's missing loader and store, the entry lines of a
profile file: ranks ascend from `r` without gaps and no n-gram occurs twice. The second
argument is the entries read so far, last first. -/
def parseEntries (k : Kind) : Nat → Profile → List (List Char) → Option Profile
  | _, done, [] => some done.reverse
  | r, done, line :: rest =>
    match parseEntry k line with
    | none => none
    | some (g, r1) =>
      if r1 = r ∧ (done.find? (fun e => e.1 == g)).isNone then
        parseEntries k (r + 1) ((g, r1) :: done) rest
      else none

/-- Modelled from the spec: for the library's missing loader and store, the header line of a
profile file. -/
def parseHeader (line : List Char) : Option Kind :=
  if line = "kind:raw".data then some Kind.raw
  else if line = "kind:utf8".data then some Kind.utf8
  else none

/-- Modelled from the spec: the profile loader of §6 (missing with the library). Blank lines
and lines beginning with `#` are skipped, the first line left is the header, the others are
the entries. A `none` is a ParseError. -/
def parseProfile (content : String) : Option (Kind × Profile) :=
  match (linesOf content.data).filter (fun l => !(l == [] || l.head? == some '#')) with
  | [] => none
  | header :: entries =>
    match parseHeader header with
    | none => none
    | some k => (parseEntries k 0 [] entries).map (fun p => (k, p))

/-- Modelled from the spec: the data of the library, which are missing: the case folding
table of the extractor, the embedded default profiles, and the files that `add_language` can
read (`none` for a file that cannot be read). -/
structure Resources where
  fold : Nat → Nat
  defaults : Store
  files : String → Option String

/-- Modelled from the spec: the operation `add_language(label, source)` of §4.2 (missing
with the library): it loads the profile file `source` and registers it, not enabled, under
(label, kind); it fails with IOError, ParseError or DuplicateKey. -/
def add_language (res : Resources) (store : Store) (label source : String) :
    Except String Store :=
  match res.files source with
  | none => .error "IOError"
  | some content =>
    match parseProfile content with
    | none => .error "ParseError"
    | some (k, p) =>
      if store.any (fun e => e.label == label && e.kind == k) then .error "DuplicateKey"
      else .ok (store ++ [{ label := label, kind := k, profile := p, enabled := false }])

/-- Modelled from the spec: for the library's missing loader and store, the operation
`enable_all_raw()` of §4.2: the enabled-flag is set on every entry of kind `raw`. -/
def enable_all_raw (store : Store) : Store :=
  store.map (fun e => if e.kind = Kind.raw then { e with enabled := true } else e)

/-- Modelled from the spec: for the library's missing loader and store, the operation
`enable_all_utf8()` of §4.2: the enabled-flag is set on every entry of kind `utf8`. -/
def enable_all_utf8 (store : Store) : Store :=
  store.map (fun e => if e.kind = Kind.utf8 then { e with enabled := true } else e)

/-! ### Selection (§4.4) -/

/-- Modelled from the spec: for the library's missing `Classify`, the enabled entries of a
store. -/
def enabledEntries (store : Store) : List Entry :=
  store.filter (fun e => e.enabled)

/-- Modelled from the spec: for the library's missing `Classify`, step 1 and §4.3: every
enabled entry with its distance from the extraction of the input for the kind of the entry.
-/
def scores (fold : Nat → Nat) (store : Store) (text : String) : List (Entry × Nat) :=
  (enabledEntries store).map (fun e => (e, distance (extract fold e.kind text) e.profile))

/-- Modelled from the spec: for the library's missing `Classify`, the least of the
distances, `d_min`. -/
def minDistance : List (Entry × Nat) → Nat
  | [] => 0
  | [x] => x.2
  | x :: y :: rest => min x.2 (minDistance (y :: rest))

/-- Modelled from the spec: for the library's missing `Classify`, step 2, the candidates
with `d ≤ d_min × 1.03`. -/
def survivors (sc : List (Entry × Nat)) : List (Entry × Nat) :=
  sc.filter (fun x => withinThreshold (minDistance sc) x.2)

/-- Modelled from the spec: for the library's missing `Classify`, step 4, the input profile
of some extraction that was made (one for each kind with an enabled entry) has fewer than
MIN_DOCSIZE n-grams. -/
def tooShort (fold : Nat → Nat) (store : Store) (text : String) : Bool :=
  (enabledEntries store).any (fun e => decide ((extract fold e.kind text).length < MIN_DOCSIZE))

/-- Modelled from the spec: for the library's missing `Classify`, the name of a kind as a
label suffix. -/
def kindSuffix : Kind → String
  | Kind.raw => ".raw"
  | Kind.utf8 => ".utf8"

/-- Modelled from the spec: for the library's missing `Classify`, step 5, the label of a
surviving candidate: with its kind suffix when the variant of the other kind survives too,
bare otherwise. -/
def outputLabel (kept : List (Entry × Nat)) (e : Entry) : String :=
  if kept.any (fun x => x.1.label == e.label && x.1.kind != e.kind) then
    e.label ++ kindSuffix e.kind
  else e.label

/-- Modelled from the spec: for the library's missing `Classify`, step 5, the order of the
result: ascending distance, ties broken by the lexicographic order of the labels. -/
def resultBefore (x y : String × Nat) : Bool :=
  decide (x.2 < y.2) ||
    (x.2 == y.2 && ngramLe (x.1.data.map Char.toNat) (y.1.data.map Char.toNat))

/-- Modelled from the spec: the operation `classify(text)` of §4.4 (missing with the
library). It fails with NoEnabledProfiles when no entry is enabled. An input profile with
fewer than MIN_DOCSIZE n-grams gives `short` (step 4) whenever a profile is enabled, as §8
fixes for the empty string and for MIN_DOCSIZE − 1 n-grams, so that test comes before the
count of the candidates. Otherwise the candidates within the threshold are kept (step 2),
more than MAX_CANDIDATES of them give `unknown` (step 3), and else the labels are returned
by ascending distance (step 5). -/
def classify (fold : Nat → Nat) (store : Store) (text : String) : Except String (List String) :=
  if enabledEntries store = [] then .error "NoEnabledProfiles"
  else if tooShort fold store text then .ok ["short"]
  else
    let kept := survivors (scores fold store text)
    if MAX_CANDIDATES < kept.length then .ok ["unknown"]
    else
      .ok ((sortBy resultBefore (kept.map (fun x => (outputLabel kept x.1, x.2)))).map Prod.fst)

/-- Modelled from the spec: for the library's missing loader and store, the store of a
fresh classifier of §4.2: all default profiles registered, all enabled-flags false. -/
def fresh (defaults : Store) : Store :=
  defaults.map (fun e => { e with enabled := false })

/-- Modelled from the spec: for the library's missing `Classify`, the operations of §6 that
the engine exposes to the command-line program, as the library that `main` is run with. -/
def engine (res : Resources) : Library Store where
  NewTextCat := fresh res.defaults
  AddLanguage := add_language res
  EnableAllRawLanguages := enable_all_raw
  EnableAllUtf8Languages := enable_all_utf8
  Classify := classify res.fold

/-! ## Notions used to state the properties of a run -/

/-- The texts of a list written one after the other. -/
def written : List String → String
  | [] => ""
  | a :: rest => a ++ written rest

/-- The pattern files are loaded without error: no `AddLanguage` call of the loop of
lines 63 to 66 returns an error. -/
def patternsLoaded {σ : Type} (lib : Library σ) (fl : Flags) : Prop :=
  ∃ tc, (loadPatterns lib fl).2 = Except.ok tc

/-- The `AddLanguage` call for an element of `-p`. -/
def addCall (i : String) : Event :=
  Event.addLanguage (Base i) i

/-- The `AddLanguage` calls of a run, in the order they were made. -/
def addCalls {σ : Type} (r : Run σ) : List Event :=
  r.trace.filter Event.isAdd

/-- The enable calls of a run, in the order they were made. -/
def enableCalls {σ : Type} (r : Run σ) : List Event :=
  r.trace.filter Event.isEnable

/-- The `Classify` calls of a run, in the order they were made. -/
def classifyCalls {σ : Type} (r : Run σ) : List Event :=
  r.trace.filter Event.isClassify

/-- The calls of a run that read the input, in the order they were made. -/
def readCalls {σ : Type} (r : Run σ) : List Event :=
  r.trace.filter Event.isRead

/-- The calls of a list of steps. -/
def callsOf {σ : Type} (steps : List (Step σ)) : List Event :=
  steps.map Step.call

/-- The pattern files given with `-p`: none when `-p` is empty, else the pieces of its value
between the commas. -/
def patternFiles (fl : Flags) : List String :=
  if fl.opt_p = "" then [] else Split fl.opt_p

/-- The registration of pattern files one after the other, each under the label
`path.Base` of its name, starting from a classifier: the classifier in which all of them
are registered, or the error of the first registration that fails. -/
def registerAll {σ : Type} (lib : Library σ) : σ → List String → Except String σ
  | tc, [] => Except.ok tc
  | tc, p :: rest =>
    match lib.AddLanguage tc (Base p) p with
    | Except.error e => Except.error e
    | Except.ok tc1 => registerAll lib tc1 rest

/-- The classifier that the flags ask for, from the classifier `tc` in which the pattern
files are registered: with neither flag the utf-8 patterns of `tc` are enabled, with `-r`
alone the raw patterns, with `-b` both kinds. -/
def enabledClassifier {σ : Type} (lib : Library σ) (fl : Flags) (tc : σ) : σ :=
  match fl.opt_b, fl.opt_r with
  | false, false => lib.EnableAllUtf8Languages tc
  | false, true => lib.EnableAllRawLanguages tc
  | true, _ => lib.EnableAllUtf8Languages (lib.EnableAllRawLanguages tc)

/-- The classifiers that the enable calls of a list of steps return: for each
`EnableAllRawLanguages` or `EnableAllUtf8Languages` call, the operation applied to the
receiver of the call. -/
def enableResults {σ : Type} (lib : Library σ) : List (Step σ) → List σ
  | [] => []
  | s :: rest =>
    match s.call with
    | Event.enableAllRaw => lib.EnableAllRawLanguages s.tc :: enableResults lib rest
    | Event.enableAllUtf8 => lib.EnableAllUtf8Languages s.tc :: enableResults lib rest
    | _ => enableResults lib rest

/-- The kinds of patterns that the flags ask for: raw with `-r` or `-b`, utf-8 with `-b`
or without `-r`. -/
def kindWanted (fl : Flags) : Kind → Bool
  | Kind.raw => fl.opt_r || fl.opt_b
  | Kind.utf8 => fl.opt_b || !fl.opt_r

/-- The source of the text to classify, by the rule of the usage text: the file of `-f`
when `-f` is given, else the text on the command line when there is some, else standard
input. -/
inductive Source where
  | file (name : String)
  | commandLine
  | standardInput
  deriving DecidableEq

/-- The source that the rule selects for a command line. -/
def textSource (fl : Flags) : Source :=
  if fl.opt_f ≠ "" then Source.file fl.opt_f
  else if fl.args ≠ [] then Source.commandLine
  else Source.standardInput

/-- The calls that read a source. -/
def Source.reads : Source → List Event
  | Source.file name => [Event.openFile name]
  | Source.commandLine => []
  | Source.standardInput => [Event.readStdin]

/-- The whole text of a source; `none` when reading it fails. -/
def Source.text (env : Env) (fl : Flags) : Source → Option String
  | Source.file name => env.readFile name
  | Source.commandLine => some (Join fl.args " ")
  | Source.standardInput => env.readStdin

/-- The lines that the lines reader delivers from a source; `none` when opening it fails. -/
def Source.lines (env : Env) (fl : Flags) : Source → Option (List String)
  | Source.file name => env.linesFromFile name
  | Source.commandLine => some (env.linesFromText (Join fl.args " "))
  | Source.standardInput => some env.linesFromStdin

/-- The answer for a line as `-l` prints it: the text of the error, or the labels joined
with commas. -/
def answerText : Except String (List String) → String
  | Except.error e => e
  | Except.ok labels => Join labels ","

/-- The output line for an input line: the answer, a TAB, the input line, a line feed. -/
def outputLine (answer line : String) : String :=
  answer ++ "\t" ++ line ++ "\n"

/-! ## Concrete runs

A small engine and two environments, on which the runs of the examples are evaluated. -/

/-- The resources of the examples: case folding of the ASCII letters, the default profiles
of `en` in both kinds, and one readable pattern file, `p/kl`, of kind utf8. -/
def demoResources : Resources where
  fold := fun c => if 65 ≤ c ∧ c ≤ 90 then c + 32 else c
  defaults :=
    [{ label := "en", kind := Kind.utf8, profile := [([95], 0), ([101], 1)], enabled := false },
     { label := "en", kind := Kind.raw, profile := [([95], 0), ([101], 1)], enabled := false }]
  files := fun name => if name = "p/kl" then some "kind:utf8\n_\t0\nq\t1\n" else none

/-- The store of the examples in which the pattern file `p/kl` is registered: the fresh
default profiles and the entry of the file, none enabled. -/
def demoLoaded : Store :=
  [{ label := "en", kind := Kind.utf8, profile := [([95], 0), ([101], 1)], enabled := false },
   { label := "en", kind := Kind.raw, profile := [([95], 0), ([101], 1)], enabled := false },
   { label := "kl", kind := Kind.utf8, profile := [([95], 0), ([113], 1)], enabled := false }]

/-- The environment of the examples: standard input is a pipe that holds two lines, the
file `in.txt` holds the empty text, no other file can be read, and the lines reader cuts
at line feeds. -/
def demoEnv : Env where
  isTerminal := false
  readFile := fun name => if name = "in.txt" then some "" else none
  readStdin := some "ab\ncd\n"
  linesFromFile := fun name => if name = "in.txt" then some [] else none
  linesFromText := fun s => (linesOf s.data).map String.mk
  linesFromStdin := ["ab", "cd"]

/-- The environment of the examples with a terminal as standard input. -/
def demoTerminal : Env :=
  { demoEnv with isTerminal := true }

/-- The command line `textcat -r -p=nosuch hello`: the pattern file cannot be read. -/
def cmdRawBadPattern : Flags :=
  { opt_b := false, opt_r := true, opt_l := false, opt_f := "", opt_p := "nosuch", args := ["hello"] }

/-- The command line `textcat -b -p=p/kl hello world`. -/
def cmdBoth : Flags :=
  { opt_b := true, opt_r := false, opt_l := false, opt_f := "", opt_p := "p/kl", args := ["hello", "world"] }

/-- The command line `textcat -r hello`. -/
def cmdRaw : Flags :=
  { opt_b := false, opt_r := true, opt_l := false, opt_f := "", opt_p := "", args := ["hello"] }

/-- The command line `textcat -f=nosuch`: the text file cannot be read. -/
def cmdBadFile : Flags :=
  { opt_b := false, opt_r := false, opt_l := false, opt_f := "nosuch", opt_p := "", args := [] }

/-- The command line `textcat -p=nosuch`, the text on standard input. -/
def cmdStdinBadPattern : Flags :=
  { opt_b := false, opt_r := false, opt_l := false, opt_f := "", opt_p := "nosuch", args := [] }

/-- The command line `textcat`, the text on standard input. -/
def cmdStdin : Flags :=
  { opt_b := false, opt_r := false, opt_l := false, opt_f := "", opt_p := "", args := [] }

/-- The command line `textcat -p=p/kl`. -/
def cmdPattern : Flags :=
  { opt_b := false, opt_r := false, opt_l := false, opt_f := "", opt_p := "p/kl", args := [] }

/-- The command line `textcat -p=nosuch,p/kl hello`: the first pattern file cannot be read. -/
def cmdTwoPatterns : Flags :=
  { opt_b := false, opt_r := false, opt_l := false, opt_f := "", opt_p := "nosuch,p/kl", args := ["hello"] }

/-- The command line `textcat -p=p/kl,,x/ hello`: the second element of `-p` is empty. -/
def cmdEmptyElement : Flags :=
  { opt_b := false, opt_r := false, opt_l := false, opt_f := "", opt_p := "p/kl,,x/", args := ["hello"] }

/-- The command line `textcat -l -p=nosuch hello`. -/
def cmdLinesBadPattern : Flags :=
  { opt_b := false, opt_r := false, opt_l := true, opt_f := "", opt_p := "nosuch", args := ["hello"] }

/-- The command line `textcat -l`, the lines on standard input. -/
def cmdLines : Flags :=
  { opt_b := false, opt_r := false, opt_l := true, opt_f := "", opt_p := "", args := [] }

/-- The command line `textcat -f=in.txt`: the text file is empty. -/
def cmdEmptyFile : Flags :=
  { opt_b := false, opt_r := false, opt_l := false, opt_f := "in.txt", opt_p := "", args := [] }

/-- The resources of the example with six languages: the default profiles of six
languages, each in both kinds. -/
def sixProfiles : Resources where
  fold := fun c => c
  defaults :=
    ["da", "de", "en", "fr", "nl", "sv"].flatMap
      (fun l =>
        [{ label := l, kind := Kind.utf8, profile := [([95], 0), ([101], 1)], enabled := false },
         { label := l, kind := Kind.raw, profile := [([95], 0), ([101], 1)], enabled := false }])
  files := fun _ => none

/-! ## The shape of a run of `main` -/


section Shape

variable {σ : Type} (lib : Library σ)

theorem addLanguages_trace (tc : σ) (ps : List String) :
    ∃ n, n ≤ ps.length ∧ callsOf (addLanguages lib tc ps).1 = (ps.take n).map addCall ∧
      ((∃ tc1, (addLanguages lib tc ps).2 = Except.ok tc1) → n = ps.length) ∧
      (ps ≠ [] → 1 ≤ n) := by
  induction ps generalizing tc with
  | nil => exact ⟨0, by simp [addLanguages, callsOf]⟩
  | cons i rest ih =>
    cases h : lib.AddLanguage tc (Base i) i with
    | error e =>
      refine ⟨1, by simp, ?_, ?_, fun _ => le_refl 1⟩
      · simp [addLanguages, h, addCall, callsOf]
      · rintro ⟨tc1, h1⟩
        simp [addLanguages, h] at h1
    | ok tc1 =>
      obtain ⟨n, hn, htr, hok, _⟩ := ih tc1
      refine ⟨n + 1, by simpa using hn, ?_, ?_, fun _ => Nat.le_add_left 1 n⟩
      · simp only [callsOf] at htr
        simp [addLanguages, h, htr, addCall, callsOf]
      · rintro ⟨tc2, h2⟩
        simp only [addLanguages, h] at h2
        simpa using hok ⟨tc2, h2⟩

theorem splitCommaChars_ne_nil (cs : List Char) : splitCommaChars cs ≠ [] := by
  cases cs with
  | nil => simp [splitCommaChars]
  | cons c cs =>
    unfold splitCommaChars
    split_ifs
    · simp
    · split <;> simp

theorem Split_ne_nil (s : String) : Split s ≠ [] := by
  unfold Split
  simpa using splitCommaChars_ne_nil s.data

theorem loadPatterns_trace (fl : Flags) :
    ∃ n, n ≤ (Split fl.opt_p).length ∧
      (callsOf (loadPatterns lib fl).1 =
        if fl.opt_p = "" then [] else ((Split fl.opt_p).take n).map addCall) ∧
      (patternsLoaded lib fl → n = (Split fl.opt_p).length) ∧ 1 ≤ n := by
  unfold patternsLoaded loadPatterns
  by_cases hp : fl.opt_p = ""
  · exact ⟨(Split fl.opt_p).length, le_refl _, by simp [hp, callsOf], fun _ => rfl,
      Nat.pos_of_ne_zero (by simpa using Split_ne_nil fl.opt_p)⟩
  · obtain ⟨n, hn, htr, hok, h1⟩ := addLanguages_trace lib lib.NewTextCat (Split fl.opt_p)
    refine ⟨n, hn, by simp [hp, htr], ?_, h1 (Split_ne_nil _)⟩
    simpa [hp] using hok

theorem loadPatterns_all_add (fl : Flags) :
    ∀ e ∈ callsOf (loadPatterns lib fl).1, ∃ i, e = addCall i := by
  obtain ⟨n, _, htr, _⟩ := loadPatterns_trace lib fl
  intro e he
  rw [htr] at he
  split at he
  · simp at he
  · obtain ⟨i, _, hi⟩ := List.mem_map.1 he
    exact ⟨i, hi.symm⟩

theorem enableLanguages_steps (fl : Flags) (tc : σ) :
    (enableLanguages lib fl tc).1 =
      (if fl.opt_r || fl.opt_b then [{ tc := tc, call := Event.enableAllRaw }] else []) ++
      (if fl.opt_b || !fl.opt_r then
        [{ tc := if fl.opt_r || fl.opt_b then lib.EnableAllRawLanguages tc else tc,
           call := Event.enableAllUtf8 }]
       else []) := by
  unfold enableLanguages enableRaw enableUtf8
  cases fl.opt_r <;> cases fl.opt_b <;> simp

theorem enableLanguages_classifier (fl : Flags) (tc : σ) :
    (enableLanguages lib fl tc).2 = enabledClassifier lib fl tc := by
  unfold enableLanguages enableRaw enableUtf8 enabledClassifier
  cases fl.opt_r <;> cases fl.opt_b <;> simp

theorem enableLanguages_trace (fl : Flags) (tc : σ) :
    callsOf (enableLanguages lib fl tc).1 =
      (if fl.opt_r || fl.opt_b then [Event.enableAllRaw] else []) ++
      (if fl.opt_b || !fl.opt_r then [Event.enableAllUtf8] else []) := by
  rw [enableLanguages_steps]
  cases fl.opt_r <;> cases fl.opt_b <;> simp [callsOf]

theorem classifyLines_trace (tc : σ) (lines : List String) :
    (classifyLines lib tc lines).1 =
      lines.map (fun line => { tc := tc, call := Event.classify line }) := by
  induction lines with
  | nil => rfl
  | cons l rest ih => simp [classifyLines, ih]

theorem classifyLines_stdout (tc : σ) (lines : List String) :
    (classifyLines lib tc lines).2 = written (lines.map (printLine lib tc)) := by
  induction lines with
  | nil => rfl
  | cons l rest ih => simp [classifyLines, ih, written]

theorem callsOf_readSteps (tc : σ) (ev : List Event) :
    (readSteps tc ev).map Step.call = ev := by
  simp [readSteps, Function.comp_def]

theorem callsOf_classifySteps (tc : σ) (ts : List String) :
    (ts.map (fun line => ({ tc := tc, call := Event.classify line } : Step σ))).map Step.call =
      ts.map Event.classify := by
  simp [Function.comp_def]

theorem classifyInput_trace (env : Env) (fl : Flags) (tc : σ) :
    (classifyInput lib env fl tc).trace =
      if fl.opt_l then
        (openLines env fl).1 ++ ((openLines env fl).2.getD []).map Event.classify
      else
        (readText env fl).1 ++ ((readText env fl).2.toList).map Event.classify := by
  unfold classifyInput
  cases fl.opt_l
  · simp only [Bool.false_eq_true, if_false]
    generalize readText env fl = rt
    obtain ⟨ev, t⟩ := rt
    cases t <;> simp [classifyText, Run.trace, callsOf_readSteps]
  · simp only [if_true]
    generalize openLines env fl = ol
    obtain ⟨ev, t⟩ := ol
    cases t <;> simp [classifyLines_trace, Run.trace, callsOf_readSteps, callsOf_classifySteps]

theorem main_usage (env : Env) (fl : Flags) (h : usageCheck env fl = true) :
    main lib env fl = { steps := [], stdout := "", exit := Exit.usage } := by
  simp [main, h]

theorem main_loaded (env : Env) (fl : Flags) (h : usageCheck env fl = false) (tc : σ)
    (hl : (loadPatterns lib fl).2 = Except.ok tc) :
    main lib env fl =
      { steps := (loadPatterns lib fl).1 ++ (enableLanguages lib fl tc).1 ++
          (classifyInput lib env fl (enableLanguages lib fl tc).2).steps,
        stdout := (classifyInput lib env fl (enableLanguages lib fl tc).2).stdout,
        exit := (classifyInput lib env fl (enableLanguages lib fl tc).2).exit } := by
  unfold main
  rw [h]
  revert hl
  generalize loadPatterns lib fl = lp
  obtain ⟨ev, r⟩ := lp
  intro hl
  simp only at hl
  subst hl
  simp

theorem main_not_loaded (env : Env) (fl : Flags) (h : usageCheck env fl = false) (e : String)
    (hl : (loadPatterns lib fl).2 = Except.error e) :
    main lib env fl =
      { steps := (loadPatterns lib fl).1, stdout := "", exit := Exit.checkErr } := by
  unfold main
  rw [h]
  revert hl
  generalize loadPatterns lib fl = lp
  obtain ⟨ev, r⟩ := lp
  intro hl
  simp only at hl
  subst hl
  simp

theorem loadPatterns_isAdd (fl : Flags) :
    ∀ e ∈ callsOf (loadPatterns lib fl).1, e.isAdd = true := by
  intro e he
  obtain ⟨i, rfl⟩ := loadPatterns_all_add lib fl e he
  rfl

theorem enableLanguages_isEnable (fl : Flags) (tc : σ) :
    ∀ e ∈ callsOf (enableLanguages lib fl tc).1, e.isEnable = true := by
  intro e he
  rw [enableLanguages_trace] at he
  simp only [List.mem_append, List.mem_ite_nil_right, List.mem_singleton] at he
  rcases he with ⟨_, rfl⟩ | ⟨_, rfl⟩ <;> rfl

theorem readText_isRead (env : Env) (fl : Flags) :
    ∀ e ∈ (readText env fl).1, e.isRead = true := by
  intro e he
  unfold readText at he
  split_ifs at he <;> simp at he <;> subst he <;> rfl

theorem openLines_isRead (env : Env) (fl : Flags) :
    ∀ e ∈ (openLines env fl).1, e.isRead = true := by
  intro e he
  unfold openLines at he
  split_ifs at he <;> simp at he <;> subst he <;> rfl

theorem classifyInput_events (env : Env) (fl : Flags) (tc : σ) :
    ∀ e ∈ (classifyInput lib env fl tc).trace, e.isRead = true ∨ e.isClassify = true := by
  intro e he
  rw [classifyInput_trace] at he
  split_ifs at he
  · rcases List.mem_append.1 he with h | h
    · exact Or.inl (openLines_isRead env fl e h)
    · obtain ⟨t, _, rfl⟩ := List.mem_map.1 h
      exact Or.inr rfl
  · rcases List.mem_append.1 he with h | h
    · exact Or.inl (readText_isRead env fl e h)
    · obtain ⟨t, _, rfl⟩ := List.mem_map.1 h
      exact Or.inr rfl

theorem inOrder_of_isAdd {x y : Event} (hx : x.isAdd = true) : inOrder x y := by
  cases x <;> simp [Event.isAdd] at hx
  exact ⟨fun _ => ⟨rfl, rfl⟩, fun _ => rfl⟩

theorem inOrder_of_input {x y : Event} (hy : y.isRead = true ∨ y.isClassify = true) :
    inOrder x y := by
  cases y <;> simp [Event.isRead, Event.isClassify] at hy <;>
    exact ⟨fun h => by simp [Event.isAdd] at h, fun h => by simp [Event.isEnable] at h⟩

theorem inOrder_of_isEnable {x y : Event} (hx : x.isEnable = true) (hy : y.isEnable = true) :
    inOrder x y := by
  cases x <;> simp [Event.isEnable] at hx <;>
    cases y <;> simp [Event.isEnable] at hy <;>
    exact ⟨fun h => by simp [Event.isAdd] at h, fun _ => rfl⟩

/-- A run in three parts, `AddLanguage` calls, then enable calls, then reads of the input
and `Classify` calls, is in order. -/
theorem pairwise_inOrder (A E C : List Event) (hA : ∀ e ∈ A, e.isAdd = true)
    (hE : ∀ e ∈ E, e.isEnable = true) (hC : ∀ e ∈ C, e.isRead = true ∨ e.isClassify = true) :
    List.Pairwise inOrder (A ++ E ++ C) := by
  rw [List.pairwise_append, List.pairwise_append]
  refine ⟨⟨?_, ?_, ?_⟩, ?_, ?_⟩
  · exact List.pairwise_of_forall_mem_list (fun a ha b _ => inOrder_of_isAdd (hA a ha))
  · exact List.pairwise_of_forall_mem_list (fun a ha b hb => inOrder_of_isEnable (hE a ha) (hE b hb))
  · exact fun a ha b _ => inOrder_of_isAdd (hA a ha)
  · exact List.pairwise_of_forall_mem_list (fun a _ b hb => inOrder_of_input (hC b hb))
  · exact fun a _ b hb => inOrder_of_input (hC b hb)

/-- The run of `main` past the usage check, whatever becomes of the pattern files: the
`AddLanguage` calls, then, if they all succeed, the enable calls and the classification. -/
theorem main_trace_loaded (env : Env) (fl : Flags) (h : usageCheck env fl = false) (tc : σ)
    (hl : (loadPatterns lib fl).2 = Except.ok tc) :
    (main lib env fl).trace =
      callsOf (loadPatterns lib fl).1 ++ callsOf (enableLanguages lib fl tc).1 ++
        (classifyInput lib env fl (enableLanguages lib fl tc).2).trace := by
  rw [main_loaded lib env fl h tc hl]
  simp [Run.trace, callsOf]

theorem main_trace_cases (env : Env) (fl : Flags) (h : usageCheck env fl = false) :
    (main lib env fl).trace = callsOf (loadPatterns lib fl).1 ∨
    ∃ tc, (loadPatterns lib fl).2 = Except.ok tc ∧
      (main lib env fl).trace =
        callsOf (loadPatterns lib fl).1 ++ callsOf (enableLanguages lib fl tc).1 ++
          (classifyInput lib env fl (enableLanguages lib fl tc).2).trace := by
  cases hl : (loadPatterns lib fl).2 with
  | error e => exact Or.inl (by rw [main_not_loaded lib env fl h e hl]; rfl)
  | ok tc => exact Or.inr ⟨tc, rfl, main_trace_loaded lib env fl h tc hl⟩

end Shape

/-! ## The calls of a run -/

section Calls

variable {σ : Type} (lib : Library σ)

theorem filter_eq_nil_of_false {p : Event → Bool} {l : List Event}
    (h : ∀ e ∈ l, p e = false) : l.filter p = [] := by
  rw [List.filter_eq_nil_iff]
  intro a ha
  simp [h a ha]

theorem filter_eq_self_of_true {p : Event → Bool} {l : List Event}
    (h : ∀ e ∈ l, p e = true) : l.filter p = l :=
  List.filter_eq_self.2 h

theorem isAdd_not_enable {e : Event} (h : e.isAdd = true) : e.isEnable = false := by
  cases e <;> first | rfl | simp [Event.isAdd] at h

theorem isAdd_not_classify {e : Event} (h : e.isAdd = true) : e.isClassify = false := by
  cases e <;> first | rfl | simp [Event.isAdd] at h

theorem isAdd_not_read {e : Event} (h : e.isAdd = true) : e.isRead = false := by
  cases e <;> first | rfl | simp [Event.isAdd] at h

theorem isEnable_not_add {e : Event} (h : e.isEnable = true) : e.isAdd = false := by
  cases e <;> simp [Event.isEnable] at h <;> rfl

theorem isEnable_not_classify {e : Event} (h : e.isEnable = true) : e.isClassify = false := by
  cases e <;> simp [Event.isEnable] at h <;> rfl

theorem isEnable_not_read {e : Event} (h : e.isEnable = true) : e.isRead = false := by
  cases e <;> simp [Event.isEnable] at h <;> rfl

theorem input_not_add {e : Event} (h : e.isRead = true ∨ e.isClassify = true) :
    e.isAdd = false := by
  cases e <;> simp [Event.isRead, Event.isClassify] at h <;> rfl

theorem input_not_enable {e : Event} (h : e.isRead = true ∨ e.isClassify = true) :
    e.isEnable = false := by
  cases e <;> simp [Event.isRead, Event.isClassify] at h <;> rfl

/-- The enable calls of a run in which the pattern files are loaded. -/
theorem enableCalls_loaded (env : Env) (fl : Flags) (h : usageCheck env fl = false) (tc : σ)
    (hl : (loadPatterns lib fl).2 = Except.ok tc) :
    enableCalls (main lib env fl) = callsOf (enableLanguages lib fl tc).1 := by
  unfold enableCalls
  rw [main_trace_loaded lib env fl h tc hl]
  simp only [List.filter_append]
  rw [filter_eq_nil_of_false (fun e he => isAdd_not_enable (loadPatterns_isAdd lib fl e he)),
    filter_eq_self_of_true (enableLanguages_isEnable lib fl tc),
    filter_eq_nil_of_false (fun e he => input_not_enable (classifyInput_events lib env fl _ e he))]
  simp

/-- The `AddLanguage` calls of a run past the usage check are the calls of the loop. -/
theorem addCalls_past_usage (env : Env) (fl : Flags) (h : usageCheck env fl = false) :
    addCalls (main lib env fl) = callsOf (loadPatterns lib fl).1 := by
  unfold addCalls
  rcases main_trace_cases lib env fl h with ht | ⟨tc, _, ht⟩
  · rw [ht]
    exact filter_eq_self_of_true (loadPatterns_isAdd lib fl)
  · rw [ht]
    simp only [List.filter_append]
    rw [filter_eq_self_of_true (loadPatterns_isAdd lib fl),
      filter_eq_nil_of_false (fun e he => isEnable_not_add (enableLanguages_isEnable lib fl tc e he)),
      filter_eq_nil_of_false (fun e he => input_not_add (classifyInput_events lib env fl _ e he))]
    simp

/-- The calls of a run in which the pattern files are loaded, other than the `AddLanguage`
and enable calls, are those of the classification of the input. -/
theorem filter_input_loaded (env : Env) (fl : Flags) (h : usageCheck env fl = false) (tc : σ)
    (hl : (loadPatterns lib fl).2 = Except.ok tc) (p : Event → Bool)
    (hA : ∀ e, e.isAdd = true → p e = false) (hE : ∀ e, e.isEnable = true → p e = false) :
    (main lib env fl).trace.filter p =
      (classifyInput lib env fl (enableLanguages lib fl tc).2).trace.filter p := by
  rw [main_trace_loaded lib env fl h tc hl]
  simp only [List.filter_append]
  rw [filter_eq_nil_of_false (fun e he => hA e (loadPatterns_isAdd lib fl e he)),
    filter_eq_nil_of_false (fun e he => hE e (enableLanguages_isEnable lib fl tc e he))]
  simp

theorem filter_isClassify_append (R : List Event) (ts : List String)
    (hR : ∀ e ∈ R, e.isRead = true) :
    (R ++ ts.map Event.classify).filter Event.isClassify = ts.map Event.classify := by
  rw [List.filter_append, filter_eq_nil_of_false, filter_eq_self_of_true]
  · rfl
  · intro e he
    obtain ⟨t, _, rfl⟩ := List.mem_map.1 he
    rfl
  · intro e he
    have := hR e he
    cases e <;> simp [Event.isRead] at this <;> rfl

theorem filter_isRead_append (R : List Event) (ts : List String)
    (hR : ∀ e ∈ R, e.isRead = true) :
    (R ++ ts.map Event.classify).filter Event.isRead = R := by
  rw [List.filter_append, filter_eq_self_of_true hR, filter_eq_nil_of_false]
  · simp
  · intro e he
    obtain ⟨t, _, rfl⟩ := List.mem_map.1 he
    rfl

end Calls

/-! ## The classifier along a run -/

section Classifier

variable {σ : Type} (lib : Library σ)

theorem addLanguages_result (tc : σ) (ps : List String) :
    (addLanguages lib tc ps).2 = registerAll lib tc ps := by
  induction ps generalizing tc with
  | nil => rfl
  | cons i rest ih =>
    cases h : lib.AddLanguage tc (Base i) i with
    | error e => simp [addLanguages, registerAll, h]
    | ok tc1 => simp [addLanguages, registerAll, h, ih]

theorem loadPatterns_result (fl : Flags) :
    (loadPatterns lib fl).2 = registerAll lib lib.NewTextCat (patternFiles fl) := by
  unfold loadPatterns patternFiles
  by_cases hp : fl.opt_p = ""
  · simp [hp, registerAll]
  · simp [hp, addLanguages_result]

theorem addLanguages_head (tc : σ) (ps : List String) (b : Step σ) (rest : List (Step σ))
    (h : (addLanguages lib tc ps).1 = b :: rest) : b.tc = tc := by
  cases ps with
  | nil => simp [addLanguages] at h
  | cons i more =>
    cases ha : lib.AddLanguage tc (Base i) i with
    | error e =>
      simp only [addLanguages, ha, List.cons.injEq] at h
      rw [← h.1]
    | ok tc1 =>
      simp only [addLanguages, ha, List.cons.injEq] at h
      rw [← h.1]

theorem addLanguages_nil (tc : σ) (ps : List String) (h : (addLanguages lib tc ps).1 = []) :
    (addLanguages lib tc ps).2 = Except.ok tc := by
  cases ps with
  | nil => rfl
  | cons i more =>
    cases ha : lib.AddLanguage tc (Base i) i <;> simp [addLanguages, ha] at h

/-- The steps of the loop over `-p`: the call that returns an error is the last, and the
classifier that a call returns is the receiver of the next call. -/
theorem addLanguages_step (tc : σ) (ps : List String) (pre post : List (Step σ)) (a : Step σ)
    (h : (addLanguages lib tc ps).1 = pre ++ a :: post) :
    ∃ p, a.call = Event.addLanguage (Base p) p ∧
      (∀ e, lib.AddLanguage a.tc (Base p) p = Except.error e →
        post = [] ∧ (addLanguages lib tc ps).2 = Except.error e) ∧
      (∀ t, lib.AddLanguage a.tc (Base p) p = Except.ok t →
        (post = [] ∧ (addLanguages lib tc ps).2 = Except.ok t) ∨
          ∃ b rest, post = b :: rest ∧ b.tc = t) := by
  induction ps generalizing tc pre with
  | nil => simp [addLanguages] at h
  | cons i more ih =>
    cases ha : lib.AddLanguage tc (Base i) i with
    | error e =>
      simp only [addLanguages, ha] at h ⊢
      cases pre with
      | nil =>
        simp only [List.nil_append, List.cons.injEq] at h
        obtain ⟨h1, h2⟩ := h
        subst h1
        refine ⟨i, rfl, ?_, ?_⟩
        · intro e1 he1
          rw [ha] at he1
          cases he1
          exact ⟨h2.symm, rfl⟩
        · intro t ht
          rw [ha] at ht
          cases ht
      | cons q pre1 =>
        simp only [List.cons_append, List.cons.injEq] at h
        have := h.2
        simp at this
    | ok tc1 =>
      simp only [addLanguages, ha] at h ⊢
      cases pre with
      | nil =>
        simp only [List.nil_append, List.cons.injEq] at h
        obtain ⟨h1, h2⟩ := h
        subst h1
        refine ⟨i, rfl, ?_, ?_⟩
        · intro e1 he1
          rw [ha] at he1
          cases he1
        · intro t ht
          rw [ha] at ht
          cases ht
          cases post with
          | nil => exact Or.inl ⟨rfl, addLanguages_nil lib tc1 more h2⟩
          | cons b rest => exact Or.inr ⟨b, rest, rfl, addLanguages_head lib tc1 more b rest h2⟩
      | cons q pre1 =>
        simp only [List.cons_append, List.cons.injEq] at h
        exact ih tc1 pre1 h.2

/-- If the loop over `-p` ends with an error, its last call is the one that returned it. -/
theorem addLanguages_error (tc : σ) (ps : List String) (e : String)
    (h : (addLanguages lib tc ps).2 = Except.error e) :
    ∃ pre a p, (addLanguages lib tc ps).1 = pre ++ [a] ∧
      a.call = Event.addLanguage (Base p) p ∧
      lib.AddLanguage a.tc (Base p) p = Except.error e := by
  induction ps generalizing tc with
  | nil => simp [addLanguages] at h
  | cons i more ih =>
    cases ha : lib.AddLanguage tc (Base i) i with
    | error e1 =>
      simp only [addLanguages, ha, Except.error.injEq] at h ⊢
      subst h
      exact ⟨[], _, i, rfl, rfl, ha⟩
    | ok tc1 =>
      simp only [addLanguages, ha] at h ⊢
      obtain ⟨pre, a, p, h1, h2, h3⟩ := ih tc1 h
      exact ⟨_ :: pre, a, p, by rw [h1]; rfl, h2, h3⟩

/-- A list in two parts, cut at an element that the second part cannot hold: the cut is
in the first part. -/
theorem cut_in_first {α : Type} (P : α → Prop) (X Y pre post : List α) (a : α)
    (hY : ∀ y ∈ Y, ¬ P y) (ha : P a) (h : X ++ Y = pre ++ a :: post) :
    ∃ post1, X = pre ++ a :: post1 ∧ post = post1 ++ Y := by
  rcases List.append_eq_append_iff.1 h with ⟨a1, _, h2⟩ | ⟨c1, h1, h2⟩
  · exact absurd ha (hY a (by rw [h2]; simp))
  · cases c1 with
    | nil =>
      simp only [List.nil_append] at h2
      exact absurd ha (hY a (by rw [← h2]; simp))
    | cons c c2 =>
      simp only [List.cons_append, List.cons.injEq] at h2
      obtain ⟨rfl, rfl⟩ := h2
      exact ⟨c2, h1, rfl⟩

/-- A list in two parts, cut at an element that the first part cannot hold: the cut is
in the second part. -/
theorem cut_in_second {α : Type} (P : α → Prop) (X Y pre post : List α) (a : α)
    (hX : ∀ x ∈ X, ¬ P x) (ha : P a) (h : X ++ Y = pre ++ a :: post) :
    ∃ pre1, pre = X ++ pre1 ∧ Y = pre1 ++ a :: post := by
  rcases List.append_eq_append_iff.1 h with ⟨a1, h1, h2⟩ | ⟨c1, h1, h2⟩
  · exact ⟨a1, h1, h2⟩
  · cases c1 with
    | nil =>
      simp only [List.nil_append] at h2
      simp only [List.append_nil] at h1
      exact ⟨[], by simp [h1], h2.symm⟩
    | cons c c2 =>
      simp only [List.cons_append, List.cons.injEq] at h2
      obtain ⟨rfl, _⟩ := h2
      exact absurd ha (hX a (by rw [h1]; simp))

theorem mem_callsOf {s : Step σ} {steps : List (Step σ)} (h : s ∈ steps) :
    s.call ∈ callsOf steps :=
  List.mem_map_of_mem Step.call h

theorem classifyInput_tc (env : Env) (fl : Flags) (tc : σ) :
    ∀ s ∈ (classifyInput lib env fl tc).steps, s.tc = tc := by
  intro s hs
  unfold classifyInput at hs
  cases hopt : fl.opt_l
  · simp only [hopt, Bool.false_eq_true, if_false] at hs
    revert hs
    generalize readText env fl = rt
    obtain ⟨ev, t⟩ := rt
    cases t <;> simp only [classifyText, readSteps, List.mem_append, List.mem_map,
      List.mem_singleton]
    · rintro ⟨c, _, rfl⟩; rfl
    · rintro (⟨c, _, rfl⟩ | rfl) <;> rfl
  · simp only [hopt, if_true] at hs
    revert hs
    generalize openLines env fl = ol
    obtain ⟨ev, t⟩ := ol
    cases t <;> simp only [classifyLines_trace, readSteps, List.mem_append, List.mem_map]
    · rintro ⟨c, _, rfl⟩; rfl
    · rintro (⟨c, _, rfl⟩ | ⟨c, _, rfl⟩) <;> rfl

theorem classifyInput_step_events (env : Env) (fl : Flags) (tc : σ) :
    ∀ s ∈ (classifyInput lib env fl tc).steps,
      s.call.isRead = true ∨ s.call.isClassify = true :=
  fun s hs => classifyInput_events lib env fl tc s.call (mem_callsOf hs)

theorem enableLanguages_head (fl : Flags) (tc : σ) :
    ∃ b rest, (enableLanguages lib fl tc).1 = b :: rest ∧ b.tc = tc := by
  rw [enableLanguages_steps]
  cases fl.opt_r <;> cases fl.opt_b <;> simp

theorem enableLanguages_tc (fl : Flags) (tc : σ) :
    ∀ s ∈ (enableLanguages lib fl tc).1,
      (s.call = Event.enableAllRaw ∧ s.tc = tc) ∨
      (s.call = Event.enableAllUtf8 ∧
        s.tc = if fl.opt_r || fl.opt_b then lib.EnableAllRawLanguages tc else tc) := by
  intro s hs
  rw [enableLanguages_steps] at hs
  simp only [List.mem_append, List.mem_ite_nil_right, List.mem_singleton] at hs
  rcases hs with ⟨_, rfl⟩ | ⟨_, rfl⟩
  · exact Or.inl ⟨rfl, rfl⟩
  · exact Or.inr ⟨rfl, rfl⟩

end Classifier

/-! ## The store of the engine along a run -/

theorem add_language_ok (res : Resources) (store t : Store) (label source : String)
    (h : add_language res store label source = Except.ok t) :
    ∃ content k prof, res.files source = some content ∧
      parseProfile content = some (k, prof) ∧
      t = store ++ [{ label := label, kind := k, profile := prof, enabled := false }] := by
  unfold add_language at h
  cases hf : res.files source with
  | none => simp [hf] at h
  | some content =>
    simp only [hf] at h
    cases hp : parseProfile content with
    | none => simp [hp] at h
    | some kp =>
      obtain ⟨k, prof⟩ := kp
      simp only [hp] at h
      split_ifs at h
      simp only [Except.ok.injEq] at h
      exact ⟨content, k, prof, rfl, hp, h.symm⟩

theorem fresh_disabled (defaults : Store) : ∀ e ∈ fresh defaults, e.enabled = false := by
  intro e he
  obtain ⟨d, _, rfl⟩ := List.mem_map.1 he
  rfl

/-- The store in which the pattern files are registered holds what the store held before,
all new entries are disabled, and each pattern file has its entry. -/
theorem registerAll_engine (res : Resources) (store tc : Store) (ps : List String)
    (h : registerAll (engine res) store ps = Except.ok tc) :
    (∀ e ∈ store, e ∈ tc) ∧
    ((∀ e ∈ store, e.enabled = false) → ∀ e ∈ tc, e.enabled = false) ∧
    (∀ p ∈ ps, ∃ content k prof, res.files p = some content ∧
      parseProfile content = some (k, prof) ∧
      ({ label := Base p, kind := k, profile := prof, enabled := false } : Entry) ∈ tc) := by
  induction ps generalizing store with
  | nil =>
    simp only [registerAll, Except.ok.injEq] at h
    subst h
    exact ⟨fun e he => he, fun hd => hd, by simp⟩
  | cons p rest ih =>
    cases ha : (engine res).AddLanguage store (Base p) p with
    | error e => simp [registerAll, ha] at h
    | ok store1 =>
      simp only [registerAll, ha] at h
      obtain ⟨content, k, prof, hf, hp, hs⟩ := add_language_ok res store store1 (Base p) p ha
      obtain ⟨hmem, hdis, hfiles⟩ := ih store1 h
      refine ⟨?_, ?_, ?_⟩
      · intro e he
        exact hmem e (by rw [hs]; exact List.mem_append_left _ he)
      · intro hd
        apply hdis
        intro e he
        rw [hs] at he
        rcases List.mem_append.1 he with he | he
        · exact hd e he
        · rw [List.mem_singleton.1 he]
      · intro q hq
        rcases List.mem_cons.1 hq with rfl | hq
        · exact ⟨content, k, prof, hf, hp, hmem _ (by rw [hs]; simp)⟩
        · exact hfiles q hq

theorem mem_enable_all_raw (store : Store) (e : Entry) (he : e ∈ store) :
    (if e.kind = Kind.raw then { e with enabled := true } else e) ∈ enable_all_raw store :=
  List.mem_map_of_mem _ he

/-- An entry of a store, through an enable operation: same label, kind and profile. -/
theorem entry_kept_raw (store : Store) (e : Entry) (he : e ∈ store) :
    ∃ e1 ∈ enable_all_raw store, e1.label = e.label ∧ e1.kind = e.kind ∧
      e1.profile = e.profile := by
  refine ⟨_, mem_enable_all_raw store e he, ?_⟩
  split_ifs <;> exact ⟨rfl, rfl, rfl⟩

/-- A disabled entry of a store, in the classifier that the flags ask for: same label,
kind and profile, and enabled if and only if the flags ask for its kind. -/
theorem entry_in_enabledClassifier (res : Resources) (fl : Flags) (store : Store) (e : Entry)
    (he : e ∈ store) (hd : e.enabled = false) :
    ∃ e1 ∈ enabledClassifier (engine res) fl store, e1.label = e.label ∧ e1.kind = e.kind ∧
      e1.profile = e.profile ∧ e1.enabled = kindWanted fl e.kind := by
  obtain ⟨label, kind, profile, enabled⟩ := e
  simp only at hd
  subst hd
  unfold enabledClassifier kindWanted
  cases hb : fl.opt_b <;> cases hr : fl.opt_r <;> cases kind <;>
    simp only [engine, enable_all_raw, enable_all_utf8, List.map_map, List.mem_map] <;>
    exact ⟨_, ⟨_, he, rfl⟩, by simp⟩

/-- The enabled-flags of the classifier that the flags ask for, when it comes from a store
with no enabled entry: an entry is enabled if and only if the flags ask for its kind. -/
theorem enabledClassifier_flags (res : Resources) (fl : Flags) (store : Store)
    (hd : ∀ e ∈ store, e.enabled = false) :
    ∀ e ∈ enabledClassifier (engine res) fl store, e.enabled = kindWanted fl e.kind := by
  intro e1 he1
  unfold enabledClassifier at he1
  cases hb : fl.opt_b <;> cases hr : fl.opt_r <;>
    simp only [hb, hr, engine, enable_all_raw, enable_all_utf8, List.map_map,
      List.mem_map] at he1 <;>
    obtain ⟨e, he, rfl⟩ := he1 <;>
    have hde := hd e he <;>
    obtain ⟨label, kind, profile, enabled⟩ := e <;>
    simp only at hde <;>
    subst hde <;>
    cases kind <;> simp [kindWanted, hb, hr]

/-! ## Which patterns are enabled (C1, C10) -/

section Enabled

variable {σ : Type} (lib : Library σ)

theorem steps_loaded (env : Env) (fl : Flags) (h : usageCheck env fl = false) (tc : σ)
    (hl : registerAll lib lib.NewTextCat (patternFiles fl) = Except.ok tc) :
    (main lib env fl).steps = (loadPatterns lib fl).1 ++ (enableLanguages lib fl tc).1 ++
      (classifyInput lib env fl (enableLanguages lib fl tc).2).steps := by
  rw [main_loaded lib env fl h tc (by rw [loadPatterns_result, hl])]

theorem loadPatterns_step_isAdd (fl : Flags) :
    ∀ s ∈ (loadPatterns lib fl).1, s.call.isAdd = true :=
  fun s hs => loadPatterns_isAdd lib fl s.call (mem_callsOf hs)

theorem enableLanguages_step_isEnable (fl : Flags) (tc : σ) :
    ∀ s ∈ (enableLanguages lib fl tc).1, s.call.isEnable = true :=
  fun s hs => enableLanguages_isEnable lib fl tc s.call (mem_callsOf hs)

/-- The steps of a run in which the pattern files are loaded, from the first read of the
input on, have the classifier that the flags ask for. -/
theorem input_steps_classifier (env : Env) (fl : Flags) (h : usageCheck env fl = false)
    (tc : σ) (hl : registerAll lib lib.NewTextCat (patternFiles fl) = Except.ok tc) :
    ∀ s ∈ (main lib env fl).steps, (s.call.isRead = true ∨ s.call.isClassify = true) →
      s.tc = enabledClassifier lib fl tc := by
  intro s hs hcall
  rw [steps_loaded lib env fl h tc hl] at hs
  rcases List.mem_append.1 hs with hs | hs
  · rcases List.mem_append.1 hs with hs | hs
    · have h1 := loadPatterns_step_isAdd lib fl s hs
      have h2 := input_not_add hcall
      rw [h1] at h2
      cases h2
    · have h1 := enableLanguages_step_isEnable lib fl tc s hs
      have h2 := input_not_enable hcall
      rw [h1] at h2
      cases h2
  · rw [classifyInput_tc lib env fl _ s hs, enableLanguages_classifier]

/-- The enable steps of a run in which the pattern files are loaded. -/
theorem enable_steps_loaded (env : Env) (fl : Flags) (h : usageCheck env fl = false)
    (tc : σ) (hl : registerAll lib lib.NewTextCat (patternFiles fl) = Except.ok tc) :
    (main lib env fl).steps.filter (fun s => s.call.isEnable) =
      (enableLanguages lib fl tc).1 := by
  rw [steps_loaded lib env fl h tc hl]
  simp only [List.filter_append]
  have h1 : (loadPatterns lib fl).1.filter (fun s => s.call.isEnable) = [] := by
    rw [List.filter_eq_nil_iff]
    intro s hs
    simp [isAdd_not_enable (loadPatterns_step_isAdd lib fl s hs)]
  have h2 : (enableLanguages lib fl tc).1.filter (fun s => s.call.isEnable) =
      (enableLanguages lib fl tc).1 :=
    List.filter_eq_self.2 (enableLanguages_step_isEnable lib fl tc)
  have h3 : (classifyInput lib env fl (enableLanguages lib fl tc).2).steps.filter
      (fun s => s.call.isEnable) = [] := by
    rw [List.filter_eq_nil_iff]
    intro s hs
    simp [input_not_enable (classifyInput_step_events lib env fl _ s hs)]
  rw [h1, h2, h3]
  simp

theorem enableResults_append (xs ys : List (Step σ)) :
    enableResults lib (xs ++ ys) = enableResults lib xs ++ enableResults lib ys := by
  induction xs with
  | nil => rfl
  | cons x xs ih =>
    simp only [List.cons_append, enableResults]
    split <;> simp [ih]

theorem enableLanguages_result (fl : Flags) (tc : σ) :
    (enableLanguages lib fl tc).2 ∈ enableResults lib (enableLanguages lib fl tc).1 := by
  rw [enableLanguages_steps]
  unfold enableLanguages enableRaw enableUtf8
  cases fl.opt_r <;> cases fl.opt_b <;> simp [enableResults]

end Enabled

/-- C1, as stated, fails: the run of `textcat -r -p=nosuch hello` gets past the usage check
with `-r` set, the pattern file cannot be read, `util.CheckErr` ends the program in the
loop of `-p`, and `EnableAllRawLanguages` is never called. -/
theorem enable_raw_skipped_after_failed_load :
    usageCheck demoEnv cmdRawBadPattern = false ∧
    (cmdRawBadPattern.opt_r || cmdRawBadPattern.opt_b) = true ∧
    (main (engine demoResources) demoEnv cmdRawBadPattern).trace.count Event.enableAllRaw = 0 ∧
    (main (engine demoResources) demoEnv cmdRawBadPattern).exit = Exit.checkErr := by
  decide

/-- C1 (amended): in a run of `main` that gets past the usage check and in which every
pattern file of `-p` is loaded without error, `EnableAllRawLanguages` is called exactly once
if `-r` or `-b` is set and never otherwise, and `EnableAllUtf8Languages` is called exactly
once if `-b` is set or `-r` is not set and never otherwise; the raw call is made on the
classifier `tc` in which the pattern files are registered and the utf-8 call on what the raw
call returned (on `tc` when there is no raw call). So the classifier with which the input
is read and classified is `tc` with, for neither flag, only the utf-8 patterns enabled, for
`-r` alone only the raw patterns, and for `-b` both kinds: on the engine of the
specification, an entry of that classifier is enabled if and only if the flags ask for its
kind. -/
theorem enable_calls_follow_flags :
    (∀ {σ : Type} (lib : Library σ) (env : Env) (fl : Flags) (tc : σ),
      usageCheck env fl = false →
      registerAll lib lib.NewTextCat (patternFiles fl) = Except.ok tc →
        (main lib env fl).trace.count Event.enableAllRaw =
          (if fl.opt_r || fl.opt_b then 1 else 0) ∧
        (main lib env fl).trace.count Event.enableAllUtf8 =
          (if fl.opt_b || !fl.opt_r then 1 else 0) ∧
        (fl.opt_b = false → fl.opt_r = false →
          enableCalls (main lib env fl) = [Event.enableAllUtf8]) ∧
        (fl.opt_b = false → fl.opt_r = true →
          enableCalls (main lib env fl) = [Event.enableAllRaw]) ∧
        (fl.opt_b = true →
          enableCalls (main lib env fl) = [Event.enableAllRaw, Event.enableAllUtf8]) ∧
        (main lib env fl).steps.filter (fun s => s.call.isEnable) =
          (if fl.opt_r || fl.opt_b then [{ tc := tc, call := Event.enableAllRaw }] else []) ++
          (if fl.opt_b || !fl.opt_r then
            [{ tc := if fl.opt_r || fl.opt_b then lib.EnableAllRawLanguages tc else tc,
               call := Event.enableAllUtf8 }]
           else []) ∧
        (∀ s ∈ (main lib env fl).steps,
          (s.call.isRead = true ∨ s.call.isClassify = true) →
            s.tc = enabledClassifier lib fl tc)) ∧
    (∀ (res : Resources) (env : Env) (fl : Flags) (tc : Store),
      usageCheck env fl = false →
      registerAll (engine res) (engine res).NewTextCat (patternFiles fl) = Except.ok tc →
        ∀ s ∈ (main (engine res) env fl).steps,
          (s.call.isRead = true ∨ s.call.isClassify = true) →
            ∀ e ∈ s.tc, e.enabled = kindWanted fl e.kind) := by
  constructor
  · intro σ lib env fl tc h hl
    have hload : (loadPatterns lib fl).2 = Except.ok tc := by rw [loadPatterns_result, hl]
    have hE := enableCalls_loaded lib env fl h tc hload
    rw [enableLanguages_trace] at hE
    have hcount : ∀ x : Event, x.isEnable = true →
        (main lib env fl).trace.count x = (enableCalls (main lib env fl)).count x := by
      intro x hx
      unfold enableCalls
      rw [List.count_filter hx]
    refine ⟨?_, ?_, ?_, ?_, ?_, ?_, input_steps_classifier lib env fl h tc hl⟩
    · rw [hcount Event.enableAllRaw rfl, hE]
      cases fl.opt_r <;> cases fl.opt_b <;> simp
    · rw [hcount Event.enableAllUtf8 rfl, hE]
      cases fl.opt_r <;> cases fl.opt_b <;> simp
    · intro hb hr
      rw [hE, hb, hr]
      simp
    · intro hb hr
      rw [hE, hb, hr]
      simp
    · intro hb
      rw [hE, hb]
      simp
    · rw [enable_steps_loaded lib env fl h tc hl, enableLanguages_steps]
  · intro res env fl tc h hl s hs hcall
    rw [input_steps_classifier (engine res) env fl h tc hl s hs hcall]
    have hd : ∀ e ∈ tc, e.enabled = false :=
      (registerAll_engine res _ tc _ hl).2.1 (fresh_disabled res.defaults)
    exact enabledClassifier_flags res fl tc hd

/-- The amended C1 on the run of `textcat -b -p=p/kl hello world`: both enable calls are
made once, and `Classify` is called on the store in which the pattern file is registered
and both kinds are enabled; its entry `kl` is enabled. -/
theorem enable_calls_follow_flags_witness :
    (main (engine demoResources) demoEnv cmdBoth).trace.count Event.enableAllRaw = 1 ∧
    (main (engine demoResources) demoEnv cmdBoth).trace.count Event.enableAllUtf8 = 1 ∧
    ({ tc := enable_all_utf8 (enable_all_raw demoLoaded),
       call := Event.classify "hello world" } : Step Store).tc =
      enabledClassifier (engine demoResources) cmdBoth demoLoaded ∧
    ({ label := "kl", kind := Kind.utf8, profile := [([95], 0), ([113], 1)],
       enabled := true } : Entry).enabled = kindWanted cmdBoth Kind.utf8 :=
  ⟨(enable_calls_follow_flags.1 (engine demoResources) demoEnv cmdBoth demoLoaded
      (by decide) rfl).1,
   (enable_calls_follow_flags.1 (engine demoResources) demoEnv cmdBoth demoLoaded
      (by decide) rfl).2.1,
   (enable_calls_follow_flags.1 (engine demoResources) demoEnv cmdBoth demoLoaded
      (by decide) rfl).2.2.2.2.2.2
      { tc := enable_all_utf8 (enable_all_raw demoLoaded), call := Event.classify "hello world" }
      (by decide) (Or.inr rfl),
   enable_calls_follow_flags.2 demoResources demoEnv cmdBoth demoLoaded (by decide) rfl
      { tc := enable_all_utf8 (enable_all_raw demoLoaded), call := Event.classify "hello world" }
      (by decide) (Or.inr rfl)
      { label := "kl", kind := Kind.utf8, profile := [([95], 0), ([113], 1)], enabled := true }
      (by decide)⟩

/-- C10: for every combination of the flags, whatever the library and the environment, an
enable call (`EnableAllRawLanguages` or `EnableAllUtf8Languages`) comes before every
`Classify` call of a run of `main`, and the classifier on which `Classify` is called is
the one that an enable call made before has returned: `main` never calls `Classify` on a
classifier on which no enable operation was performed. -/
theorem enable_before_classify {σ : Type} (lib : Library σ) (env : Env) (fl : Flags)
    (pre post : List (Step σ)) (s : Step σ) (text : String)
    (h : (main lib env fl).steps = pre ++ s :: post) (hs : s.call = Event.classify text) :
    (Event.enableAllRaw ∈ callsOf pre ∨ Event.enableAllUtf8 ∈ callsOf pre) ∧
    s.tc ∈ enableResults lib pre := by
  have hcl : s.call.isClassify = true := by rw [hs]; rfl
  cases hu : usageCheck env fl with
  | true =>
    rw [main_usage lib env fl hu] at h
    simp at h
  | false =>
    cases hl : (loadPatterns lib fl).2 with
    | error e =>
      rw [main_not_loaded lib env fl hu e hl] at h
      have hmem : s ∈ (loadPatterns lib fl).1 := by
        simp only at h
        rw [h]; simp
      have := isAdd_not_classify (loadPatterns_step_isAdd lib fl s hmem)
      rw [hcl] at this
      cases this
    | ok tc =>
      rw [main_loaded lib env fl hu tc hl] at h
      simp only at h
      obtain ⟨pre1, hpre, hC⟩ := cut_in_second (fun x : Step σ => x.call.isClassify = true)
        ((loadPatterns lib fl).1 ++ (enableLanguages lib fl tc).1) _ pre post s
        (by
          intro x hx
          rcases List.mem_append.1 hx with hx | hx
          · simp [isAdd_not_classify (loadPatterns_step_isAdd lib fl x hx)]
          · simp [isEnable_not_classify (enableLanguages_step_isEnable lib fl tc x hx)])
        hcl h
      have htc : s.tc = (enableLanguages lib fl tc).2 :=
        classifyInput_tc lib env fl _ s (by rw [hC]; simp)
      constructor
      · have hen : Event.enableAllRaw ∈ callsOf (enableLanguages lib fl tc).1 ∨
            Event.enableAllUtf8 ∈ callsOf (enableLanguages lib fl tc).1 := by
          rw [enableLanguages_trace]
          cases fl.opt_r <;> cases fl.opt_b <;> simp
        rw [hpre]
        simp only [callsOf, List.map_append, List.mem_append] at hen ⊢
        rcases hen with hen | hen
        · exact Or.inl (Or.inl (Or.inr hen))
        · exact Or.inr (Or.inl (Or.inr hen))
      · rw [hpre, htc, enableResults_append, enableResults_append]
        exact List.mem_append_left _ (List.mem_append_right _ (enableLanguages_result lib fl tc))

/-- C10 on the run of `textcat -r hello`: the enable call for raw patterns comes before the
`Classify` call, and `Classify` is called on the store that this call returned. -/
theorem enable_before_classify_witness :
    (main (engine demoResources) demoEnv cmdRaw).steps =
      [{ tc := fresh demoResources.defaults, call := Event.enableAllRaw }] ++
        { tc := enable_all_raw (fresh demoResources.defaults),
          call := Event.classify "hello" } :: [] ∧
    (Event.enableAllRaw ∈
        callsOf [{ tc := fresh demoResources.defaults, call := Event.enableAllRaw }] ∨
      Event.enableAllUtf8 ∈
        callsOf [{ tc := fresh demoResources.defaults, call := Event.enableAllRaw }]) ∧
    enable_all_raw (fresh demoResources.defaults) ∈
      enableResults (engine demoResources)
        [{ tc := fresh demoResources.defaults, call := Event.enableAllRaw }] :=
  ⟨by decide,
   enable_before_classify (engine demoResources) demoEnv cmdRaw
    [{ tc := fresh demoResources.defaults, call := Event.enableAllRaw }] []
    { tc := enable_all_raw (fresh demoResources.defaults), call := Event.classify "hello" }
    "hello" (by decide) rfl⟩

/-! ## The order of the calls (C2) -/

/-- C2: in every run of `main`, whatever the library, the environment and the command
line, every `AddLanguage` call comes before every enable call, every enable call comes
before every `Classify` call, and no `AddLanguage` or enable call follows a `Classify`
call. So when an enable call or a `Classify` call is made, every pattern file of `-p` has
been registered: the `AddLanguage` calls for all of them have been made, none returned an
error, the first enable call is made on the classifier `tc` that the last of them
returned, and `Classify` on `tc` with the kinds enabled that the flags ask for. On the
engine of the specification, the store on which an enable call or `Classify` is called
holds, for each pattern file, the entry with the profile and the kind of the file under
the label `path.Base` of its name, and when `Classify` is called that entry is enabled if
the flags ask for its kind. -/
theorem calls_in_order :
    (∀ {σ : Type} (lib : Library σ) (env : Env) (fl : Flags),
      List.Pairwise inOrder (main lib env fl).trace) ∧
    (∀ {σ : Type} (lib : Library σ) (env : Env) (fl : Flags)
        (pre post : List (Step σ)) (s : Step σ),
      (main lib env fl).steps = pre ++ s :: post →
      (s.call.isEnable = true ∨ s.call.isClassify = true) →
        ∃ tc, registerAll lib lib.NewTextCat (patternFiles fl) = Except.ok tc ∧
          (callsOf pre).filter Event.isAdd =
            (patternFiles fl).map (fun p => Event.addLanguage (Base p) p) ∧
          (s.call = Event.enableAllRaw → s.tc = tc) ∧
          (s.call = Event.enableAllUtf8 →
            s.tc = if fl.opt_r || fl.opt_b then lib.EnableAllRawLanguages tc else tc) ∧
          (s.call.isClassify = true → s.tc = enabledClassifier lib fl tc)) ∧
    (∀ (res : Resources) (env : Env) (fl : Flags) (pre post : List (Step Store))
        (s : Step Store),
      (main (engine res) env fl).steps = pre ++ s :: post →
      (s.call.isEnable = true ∨ s.call.isClassify = true) →
        ∀ p ∈ patternFiles fl, ∃ content k prof,
          res.files p = some content ∧ parseProfile content = some (k, prof) ∧
          ∃ e ∈ s.tc, e.label = Base p ∧ e.kind = k ∧ e.profile = prof ∧
            (s.call.isClassify = true → e.enabled = kindWanted fl k)) := by
  have generic : ∀ {σ : Type} (lib : Library σ) (env : Env) (fl : Flags)
      (pre post : List (Step σ)) (s : Step σ),
      (main lib env fl).steps = pre ++ s :: post →
      (s.call.isEnable = true ∨ s.call.isClassify = true) →
        ∃ tc, registerAll lib lib.NewTextCat (patternFiles fl) = Except.ok tc ∧
          (callsOf pre).filter Event.isAdd =
            (patternFiles fl).map (fun p => Event.addLanguage (Base p) p) ∧
          (s.call = Event.enableAllRaw → s.tc = tc) ∧
          (s.call = Event.enableAllUtf8 →
            s.tc = if fl.opt_r || fl.opt_b then lib.EnableAllRawLanguages tc else tc) ∧
          (s.call.isClassify = true → s.tc = enabledClassifier lib fl tc) := by
    intro σ lib env fl pre post s h hs
    have hnot : ¬ s.call.isAdd = true := by
      rcases hs with hs | hs
      · simp [isEnable_not_add hs]
      · simp [input_not_add (Or.inr hs)]
    cases hu : usageCheck env fl with
    | true =>
      rw [main_usage lib env fl hu] at h
      simp at h
    | false =>
      cases hl : (loadPatterns lib fl).2 with
      | error e =>
        rw [main_not_loaded lib env fl hu e hl] at h
        have hmem : s ∈ (loadPatterns lib fl).1 := by
          simp only at h
          rw [h]; simp
        exact absurd (loadPatterns_step_isAdd lib fl s hmem) hnot
      | ok tc =>
        have hreg : registerAll lib lib.NewTextCat (patternFiles fl) = Except.ok tc := by
          rw [← loadPatterns_result, hl]
        rw [main_loaded lib env fl hu tc hl] at h
        simp only [List.append_assoc] at h
        obtain ⟨pre1, hpre, hrest⟩ := cut_in_second (fun x : Step σ => ¬ x.call.isAdd = true)
          (loadPatterns lib fl).1 _ pre post s
          (fun x hx => by simp [loadPatterns_step_isAdd lib fl x hx]) hnot h
        have hmem : s ∈ (enableLanguages lib fl tc).1 ++
            (classifyInput lib env fl (enableLanguages lib fl tc).2).steps := by
          rw [hrest]; simp
        have hpre1 : ∀ x ∈ pre1, x.call.isAdd = false := by
          intro x hx
          have hx2 : x ∈ (enableLanguages lib fl tc).1 ++
              (classifyInput lib env fl (enableLanguages lib fl tc).2).steps := by
            rw [hrest]; simp [hx]
          rcases List.mem_append.1 hx2 with hx2 | hx2
          · exact isEnable_not_add (enableLanguages_step_isEnable lib fl tc x hx2)
          · exact input_not_add (classifyInput_step_events lib env fl _ x hx2)
        refine ⟨tc, hreg, ?_, ?_, ?_, ?_⟩
        · rw [hpre]
          simp only [callsOf, List.map_append, List.filter_append]
          have h1 : ((loadPatterns lib fl).1.map Step.call).filter Event.isAdd =
              (loadPatterns lib fl).1.map Step.call :=
            filter_eq_self_of_true (loadPatterns_isAdd lib fl)
          have h2 : (pre1.map Step.call).filter Event.isAdd = [] := by
            apply filter_eq_nil_of_false
            intro e he
            obtain ⟨x, hx, rfl⟩ := List.mem_map.1 he
            exact hpre1 x hx
          rw [h1, h2, List.append_nil]
          obtain ⟨n, hn, htr, hok, _⟩ := loadPatterns_trace lib fl
          have hn2 := hok ⟨tc, hl⟩
          simp only [callsOf] at htr
          rw [htr]
          unfold patternFiles
          by_cases hp : fl.opt_p = ""
          · simp [hp]
          · simp only [hp, if_false]
            rw [hn2, List.take_length]
            rfl
        · intro hcall
          rcases List.mem_append.1 hmem with hm | hm
          · rcases enableLanguages_tc lib fl tc s hm with ⟨_, h2⟩ | ⟨h1, _⟩
            · exact h2
            · rw [hcall] at h1; cases h1
          · have := classifyInput_step_events lib env fl _ s hm
            rw [hcall] at this
            simp [Event.isRead, Event.isClassify] at this
        · intro hcall
          rcases List.mem_append.1 hmem with hm | hm
          · rcases enableLanguages_tc lib fl tc s hm with ⟨h1, _⟩ | ⟨_, h2⟩
            · rw [hcall] at h1; cases h1
            · exact h2
          · have := classifyInput_step_events lib env fl _ s hm
            rw [hcall] at this
            simp [Event.isRead, Event.isClassify] at this
        · intro hcall
          rcases List.mem_append.1 hmem with hm | hm
          · have := isEnable_not_classify (enableLanguages_step_isEnable lib fl tc s hm)
            rw [hcall] at this
            cases this
          · rw [classifyInput_tc lib env fl _ s hm, enableLanguages_classifier]
  refine ⟨?_, generic, ?_⟩
  · intro σ lib env fl
    cases hu : usageCheck env fl with
    | true =>
      rw [main_usage lib env fl hu]
      exact List.Pairwise.nil
    | false =>
      rcases main_trace_cases lib env fl hu with ht | ⟨tc, _, ht⟩
      · rw [ht]
        exact List.pairwise_of_forall_mem_list
          (fun a ha b _ => inOrder_of_isAdd (loadPatterns_isAdd lib fl a ha))
      · rw [ht]
        exact pairwise_inOrder _ _ _ (loadPatterns_isAdd lib fl)
          (enableLanguages_isEnable lib fl tc) (classifyInput_events lib env fl _)
  · intro res env fl pre post s h hs p hp
    obtain ⟨tc, hreg, _, hraw, hutf, hcls⟩ := generic (engine res) env fl pre post s h hs
    obtain ⟨_, hdis, hfiles⟩ := registerAll_engine res _ tc _ hreg
    have hd : ∀ e ∈ tc, e.enabled = false := hdis (fresh_disabled res.defaults)
    obtain ⟨content, k, prof, hf, hpp, hmem⟩ := hfiles p hp
    refine ⟨content, k, prof, hf, hpp, ?_⟩
    cases hc : s.call with
    | addLanguage l src => rw [hc] at hs; simp [Event.isEnable, Event.isClassify] at hs
    | openFile n => rw [hc] at hs; simp [Event.isEnable, Event.isClassify] at hs
    | readStdin => rw [hc] at hs; simp [Event.isEnable, Event.isClassify] at hs
    | enableAllRaw =>
      rw [hraw hc]
      exact ⟨_, hmem, rfl, rfl, rfl, fun h => by simp [Event.isClassify] at h⟩
    | enableAllUtf8 =>
      rw [hutf hc]
      split_ifs
      · obtain ⟨e1, he1, h1, h2, h3⟩ := entry_kept_raw tc _ hmem
        exact ⟨e1, he1, h1, h2, h3, fun h => by simp [Event.isClassify] at h⟩
      · exact ⟨_, hmem, rfl, rfl, rfl, fun h => by simp [Event.isClassify] at h⟩
    | classify text =>
      rw [hcls (by rw [hc]; rfl)]
      obtain ⟨e1, he1, h1, h2, h3, h4⟩ := entry_in_enabledClassifier res fl tc _ hmem rfl
      exact ⟨e1, he1, h1, h2, h3, fun _ => h4⟩

/-- C2 on the run of `textcat -b -p=p/kl hello world`: when `Classify` is called the
`AddLanguage` call for `p/kl` has been made, and the store on which it is called holds the
entry `kl` of the file, enabled. -/
theorem calls_in_order_witness :
    (main (engine demoResources) demoEnv cmdBoth).steps =
      [{ tc := fresh demoResources.defaults, call := Event.addLanguage "kl" "p/kl" },
       { tc := demoLoaded, call := Event.enableAllRaw },
       { tc := enable_all_raw demoLoaded, call := Event.enableAllUtf8 }] ++
      { tc := enable_all_utf8 (enable_all_raw demoLoaded),
        call := Event.classify "hello world" } :: [] ∧
    (∃ content k prof,
      demoResources.files "p/kl" = some content ∧ parseProfile content = some (k, prof) ∧
      ∃ e ∈ enable_all_utf8 (enable_all_raw demoLoaded),
        e.label = Base "p/kl" ∧ e.kind = k ∧ e.profile = prof ∧
        ((Event.classify "hello world").isClassify = true →
          e.enabled = kindWanted cmdBoth k)) :=
  ⟨by decide,
   calls_in_order.2.2 demoResources demoEnv cmdBoth
    [{ tc := fresh demoResources.defaults, call := Event.addLanguage "kl" "p/kl" },
     { tc := demoLoaded, call := Event.enableAllRaw },
     { tc := enable_all_raw demoLoaded, call := Event.enableAllUtf8 }] []
    { tc := enable_all_utf8 (enable_all_raw demoLoaded), call := Event.classify "hello world" }
    (by decide) (Or.inr rfl) "p/kl" (by decide)⟩

/-! ## The `AddLanguage` calls (C5, C8) -/

/-- C5, as stated, fails twice. The run of `textcat -p=p/kl` with a terminal as standard
input stops at the usage check and makes no `AddLanguage` call, though `-p` has one element.
The run of `textcat -p=nosuch,p/kl hello` makes one `AddLanguage` call, not two: the first
call returns an error and `util.CheckErr` ends the program. -/
theorem addLanguage_calls_fewer_than_elements :
    (cmdPattern.opt_p ≠ "" ∧ Split cmdPattern.opt_p = ["p/kl"] ∧
      addCalls (main (engine demoResources) demoTerminal cmdPattern) = []) ∧
    (cmdTwoPatterns.opt_p ≠ "" ∧ Split cmdTwoPatterns.opt_p = ["nosuch", "p/kl"] ∧
      addCalls (main (engine demoResources) demoEnv cmdTwoPatterns) =
        [Event.addLanguage "nosuch" "nosuch"]) := by
  decide

section AddCalls

variable {σ : Type} (lib : Library σ)

/-- In a run of `main`, the `AddLanguage` call that returns an error is the last step,
and the classifier that an `AddLanguage` call returns is the one of the next step. -/
theorem addLanguage_step (env : Env) (fl : Flags) (pre post : List (Step σ)) (a : Step σ)
    (label source : String) (h : (main lib env fl).steps = pre ++ a :: post)
    (ha : a.call = Event.addLanguage label source) :
    (∀ e, lib.AddLanguage a.tc label source = Except.error e →
      post = [] ∧ (main lib env fl).exit = Exit.checkErr) ∧
    (∀ t, lib.AddLanguage a.tc label source = Except.ok t →
      ∀ b, post.head? = some b → b.tc = t) := by
  have hadd : a.call.isAdd = true := by rw [ha]; rfl
  cases hu : usageCheck env fl with
  | true =>
    rw [main_usage lib env fl hu] at h
    simp at h
  | false =>
    have hL : (loadPatterns lib fl).1 = (addLanguages lib lib.NewTextCat (patternFiles fl)).1 ∧
        (loadPatterns lib fl).2 = (addLanguages lib lib.NewTextCat (patternFiles fl)).2 := by
      unfold loadPatterns patternFiles
      by_cases hp : fl.opt_p = ""
      · simp [hp, addLanguages]
      · simp [hp]
    cases hl : (loadPatterns lib fl).2 with
    | error e0 =>
      rw [main_not_loaded lib env fl hu e0 hl] at h ⊢
      simp only at h ⊢
      rw [hL.1] at h
      obtain ⟨p, hp, herr, hok⟩ := addLanguages_step lib _ _ pre post a h
      rw [ha, Event.addLanguage.injEq] at hp
      obtain ⟨rfl, rfl⟩ := hp
      refine ⟨fun e he => ⟨(herr e he).1, trivial⟩, ?_⟩
      intro t ht b hb
      rcases hok t ht with ⟨_, h2⟩ | ⟨b1, rest, h1, h2⟩
      · rw [← hL.2, hl] at h2
        cases h2
      · rw [h1] at hb
        simp only [List.head?_cons, Option.some.injEq] at hb
        rw [← hb, h2]
    | ok tc =>
      rw [main_loaded lib env fl hu tc hl] at h ⊢
      simp only [List.append_assoc] at h ⊢
      obtain ⟨post1, hX, hpost⟩ := cut_in_first (fun x : Step σ => x.call.isAdd = true)
        (loadPatterns lib fl).1 _ pre post a
        (by
          intro y hy
          rcases List.mem_append.1 hy with hy | hy
          · simp [isEnable_not_add (enableLanguages_step_isEnable lib fl tc y hy)]
          · simp [input_not_add (classifyInput_step_events lib env fl _ y hy)])
        hadd h
      rw [hL.1] at hX
      obtain ⟨p, hp, herr, hok⟩ := addLanguages_step lib _ _ pre post1 a hX
      rw [ha, Event.addLanguage.injEq] at hp
      obtain ⟨rfl, rfl⟩ := hp
      constructor
      · intro e he
        have := (herr e he).2
        rw [← hL.2, hl] at this
        cases this
      · intro t ht b hb
        rcases hok t ht with ⟨h1, h2⟩ | ⟨b1, rest, h1, h2⟩
        · rw [← hL.2, hl, Except.ok.injEq] at h2
          subst h2
          obtain ⟨b2, rest2, hE, hb2⟩ := enableLanguages_head lib fl tc
          rw [hpost, h1, hE] at hb
          simp only [List.nil_append, List.cons_append, List.head?_cons,
            Option.some.injEq] at hb
          rw [← hb, hb2]
        · rw [hpost, h1] at hb
          simp only [List.cons_append, List.head?_cons, Option.some.injEq] at hb
          rw [← hb, h2]

/-- The first step of a run of `main` is made with the new classifier. -/
theorem first_step_new (env : Env) (fl : Flags) (s : Step σ)
    (h : (main lib env fl).steps.head? = some s) : s.tc = lib.NewTextCat := by
  cases hu : usageCheck env fl with
  | true =>
    rw [main_usage lib env fl hu] at h
    simp at h
  | false =>
    have hhead : ∀ rest, (loadPatterns lib fl).1 = s :: rest → s.tc = lib.NewTextCat := by
      intro rest hr
      unfold loadPatterns at hr
      split_ifs at hr
      exact addLanguages_head lib _ _ s rest hr
    cases hl : (loadPatterns lib fl).2 with
    | error e =>
      rw [main_not_loaded lib env fl hu e hl] at h
      simp only at h
      cases hs : (loadPatterns lib fl).1 with
      | nil => rw [hs] at h; simp at h
      | cons b rest =>
        rw [hs] at h
        simp only [List.head?_cons, Option.some.injEq] at h
        subst h
        exact hhead rest hs
    | ok tc =>
      rw [main_loaded lib env fl hu tc hl] at h
      simp only [List.append_assoc] at h
      cases hs : (loadPatterns lib fl).1 with
      | nil =>
        obtain ⟨b2, rest2, hE, hb2⟩ := enableLanguages_head lib fl tc
        rw [hs, hE] at h
        simp only [List.nil_append, List.cons_append, List.head?_cons,
          Option.some.injEq] at h
        subst h
        rw [hb2]
        have hnil : (loadPatterns lib fl).2 = Except.ok lib.NewTextCat := by
          unfold loadPatterns at hs ⊢
          split_ifs at hs ⊢
          · exact addLanguages_nil lib _ _ hs
          · rfl
        rw [hl, Except.ok.injEq] at hnil
        exact hnil
      | cons b rest =>
        rw [hs] at h
        simp only [List.cons_append, List.head?_cons, Option.some.injEq] at h
        subst h
        exact hhead rest hs

/-- If no `AddLanguage` call of a run returns an error, the pattern files are loaded. -/
theorem loaded_of_no_error (env : Env) (fl : Flags) (hu : usageCheck env fl = false)
    (hall : ∀ a ∈ (main lib env fl).steps, ∀ label source,
      a.call = Event.addLanguage label source →
        ∃ t, lib.AddLanguage a.tc label source = Except.ok t) :
    patternsLoaded lib fl := by
  cases hl : (loadPatterns lib fl).2 with
  | ok tc => exact ⟨tc, hl⟩
  | error e =>
    exfalso
    rw [main_not_loaded lib env fl hu e hl] at hall
    simp only at hall
    have herr : ∃ pre a p, (loadPatterns lib fl).1 = pre ++ [a] ∧
        a.call = Event.addLanguage (Base p) p ∧
        lib.AddLanguage a.tc (Base p) p = Except.error e := by
      unfold loadPatterns at hl ⊢
      split_ifs at hl ⊢
      exact addLanguages_error lib _ _ e hl
    obtain ⟨pre, a, p, h1, h2, h3⟩ := herr
    obtain ⟨t, ht⟩ := hall a (by rw [h1]; simp) _ _ h2
    rw [h3] at ht
    cases ht

end AddCalls

/-- C5 (amended): in a run of `main` that gets past the usage check, when `-p` is not empty
and splits on commas into p1..pk, `main` calls `AddLanguage` for p1, p2, ... in that order,
the i-th call with label `path.Base(pi)` and source `pi`, the first on the new classifier
and each next one on the classifier that the call before returned; it makes at least one
call, makes no further call after one that returns an error (that call is the last step of
the run, which `util.CheckErr` ends), and makes exactly k calls when no call returns an
error. When `-p` is empty, or the run stops at the usage check, `AddLanguage` is never
called. -/
theorem addLanguage_calls {σ : Type} (lib : Library σ) (env : Env) (fl : Flags) :
    (usageCheck env fl = true → addCalls (main lib env fl) = []) ∧
    (usageCheck env fl = false → fl.opt_p = "" → addCalls (main lib env fl) = []) ∧
    (usageCheck env fl = false → fl.opt_p ≠ "" →
      addCalls (main lib env fl) =
        ((Split fl.opt_p).take (addCalls (main lib env fl)).length).map
          (fun p => Event.addLanguage (Base p) p) ∧
      1 ≤ (addCalls (main lib env fl)).length ∧
      (addCalls (main lib env fl)).length ≤ (Split fl.opt_p).length ∧
      (patternsLoaded lib fl →
        addCalls (main lib env fl) =
          (Split fl.opt_p).map (fun p => Event.addLanguage (Base p) p)) ∧
      (¬ patternsLoaded lib fl →
        (main lib env fl).trace = addCalls (main lib env fl) ∧
        (main lib env fl).exit = Exit.checkErr) ∧
      ((∀ a ∈ (main lib env fl).steps, ∀ label source,
          a.call = Event.addLanguage label source →
            ∃ t, lib.AddLanguage a.tc label source = Except.ok t) →
        addCalls (main lib env fl) =
          (Split fl.opt_p).map (fun p => Event.addLanguage (Base p) p))) ∧
    (∀ s, (main lib env fl).steps.head? = some s → s.tc = lib.NewTextCat) ∧
    (∀ (pre post : List (Step σ)) (a : Step σ) (label source : String),
      (main lib env fl).steps = pre ++ a :: post →
      a.call = Event.addLanguage label source →
        (∀ e, lib.AddLanguage a.tc label source = Except.error e →
          post = [] ∧ (main lib env fl).exit = Exit.checkErr) ∧
        (∀ t, lib.AddLanguage a.tc label source = Except.ok t →
          ∀ b, post.head? = some b → b.tc = t)) := by
  refine ⟨?_, ?_, ?_, first_step_new lib env fl, addLanguage_step lib env fl⟩
  · intro hu
    rw [main_usage lib env fl hu]
    rfl
  · intro hu hp
    rw [addCalls_past_usage lib env fl hu]
    simp [loadPatterns, hp, callsOf]
  · intro hu hp
    obtain ⟨n, hn, htr, hok, h1⟩ := loadPatterns_trace lib fl
    rw [if_neg hp] at htr
    have hcalls : addCalls (main lib env fl) = ((Split fl.opt_p).take n).map addCall := by
      rw [addCalls_past_usage lib env fl hu, htr]
    have hlen : (addCalls (main lib env fl)).length = n := by
      rw [hcalls, List.length_map, List.length_take, Nat.min_eq_left hn]
    have hall : patternsLoaded lib fl → addCalls (main lib env fl) =
        (Split fl.opt_p).map (fun p => Event.addLanguage (Base p) p) := by
      intro hl
      rw [hcalls, hok hl, List.take_length]
      rfl
    refine ⟨?_, ?_, ?_, hall, ?_, ?_⟩
    · rw [hlen, hcalls]
      rfl
    · rw [hlen]; exact h1
    · rw [hlen]; exact hn
    · intro hnl
      cases hl : (loadPatterns lib fl).2 with
      | ok tc => exact absurd ⟨tc, hl⟩ hnl
      | error e =>
        rw [addCalls_past_usage lib env fl hu, main_not_loaded lib env fl hu e hl]
        exact ⟨rfl, rfl⟩
    · intro hno
      exact hall (loaded_of_no_error lib env fl hu hno)

/-- The amended C5 on two runs. In `textcat -b -p=p/kl hello world` the pattern file is
loaded and the one `AddLanguage` call has the label `kl`. In `textcat -p=nosuch,p/kl hello`
the first call, made on the new classifier, returns an error: it is the last step of the
run, which ends in `util.CheckErr`. -/
theorem addLanguage_calls_witness :
    usageCheck demoEnv cmdBoth = false ∧ cmdBoth.opt_p ≠ "" ∧
    addCalls (main (engine demoResources) demoEnv cmdBoth) =
      (Split "p/kl").map (fun p => Event.addLanguage (Base p) p) ∧
    (Split "p/kl").map (fun p => Event.addLanguage (Base p) p) =
      [Event.addLanguage "kl" "p/kl"] ∧
    (main (engine demoResources) demoEnv cmdTwoPatterns).steps =
      [] ++ { tc := fresh demoResources.defaults,
              call := Event.addLanguage "nosuch" "nosuch" } :: [] ∧
    (engine demoResources).AddLanguage (fresh demoResources.defaults) "nosuch" "nosuch" =
      Except.error "IOError" ∧
    ([] : List (Step Store)) = [] ∧
    (main (engine demoResources) demoEnv cmdTwoPatterns).exit = Exit.checkErr :=
  ⟨by decide, by decide,
   ((addLanguage_calls (engine demoResources) demoEnv cmdBoth).2.2.1
      (by decide) (by decide)).2.2.2.1 ⟨_, rfl⟩,
   by decide, by decide, rfl,
   (((addLanguage_calls (engine demoResources) demoEnv cmdTwoPatterns).2.2.2.2
      [] [] { tc := fresh demoResources.defaults,
              call := Event.addLanguage "nosuch" "nosuch" } "nosuch" "nosuch"
      (by decide) rfl).1 "IOError" rfl).1,
   (((addLanguage_calls (engine demoResources) demoEnv cmdTwoPatterns).2.2.2.2
      [] [] { tc := fresh demoResources.defaults,
              call := Event.addLanguage "nosuch" "nosuch" } "nosuch" "nosuch"
      (by decide) rfl).1 "IOError" rfl).2⟩

theorem baseChars_ne_nil (p : List Char) : baseChars p ≠ [] := by
  unfold baseChars
  by_cases h1 : p = []
  · simp [h1]
  · by_cases h2 : lastElement (dropSlashes p.reverse) = []
    · simp [h1, h2]
    · simp [h1, h2]

/-- C8: the function `path.Base` never returns the empty string; for the empty string,
which is what an empty element of the list of `-p` is (as in `a,,b` or after a trailing
comma), it returns `.`; so every label that `main` passes to `AddLanguage`, whatever the
value of `-p`, is a non-empty string, the base name of the source of the call. -/
theorem labels_not_empty :
    (∀ p : String, Base p ≠ "") ∧ Base "" = "." ∧
    (Split "a,,b").map Base = ["a", ".", "b"] ∧ (Split "a,").map Base = ["a", "."] ∧
    (∀ {σ : Type} (lib : Library σ) (env : Env) (fl : Flags) (label source : String),
      Event.addLanguage label source ∈ (main lib env fl).trace →
        label = Base source ∧ label ≠ "") := by
  have hbase : ∀ p : String, Base p ≠ "" := by
    intro p hp
    have := congrArg String.data hp
    exact baseChars_ne_nil p.data this
  refine ⟨hbase, by decide, by decide, by decide, ?_⟩
  intro σ lib env fl label source hmem
  have hadd : Event.addLanguage label source ∈ callsOf (loadPatterns lib fl).1 := by
    cases hu : usageCheck env fl with
    | true =>
      rw [main_usage lib env fl hu] at hmem
      simp [Run.trace] at hmem
    | false =>
      rw [← addCalls_past_usage lib env fl hu]
      exact List.mem_filter.2 ⟨hmem, rfl⟩
  obtain ⟨i, hi⟩ := loadPatterns_all_add lib fl _ hadd
  simp only [addCall, Event.addLanguage.injEq] at hi
  obtain ⟨h1, h2⟩ := hi
  subst h2
  exact ⟨h1, h1 ▸ hbase _⟩

/-- C8 on the run of `textcat -p=p/kl,,x/ hello`: the second element of `-p` is empty and
the label of its `AddLanguage` call is `.`. -/
theorem labels_not_empty_witness :
    Event.addLanguage "." "" ∈ (main (engine demoResources) demoEnv cmdEmptyElement).trace ∧
    "." = Base "" ∧ "." ≠ "" :=
  ⟨by decide, labels_not_empty.2.2.2.2 (engine demoResources) demoEnv cmdEmptyElement "." ""
    (by decide)⟩

/-! ## The text that is classified (C3, C4) -/

theorem classifyCalls_loaded {σ : Type} (lib : Library σ) (env : Env) (fl : Flags)
    (h : usageCheck env fl = false) (hl : patternsLoaded lib fl) :
    classifyCalls (main lib env fl) =
      if fl.opt_l then ((openLines env fl).2.getD []).map Event.classify
      else ((readText env fl).2.toList).map Event.classify := by
  obtain ⟨tc, hl⟩ := hl
  unfold classifyCalls
  rw [filter_input_loaded lib env fl h tc hl Event.isClassify
    (fun e => isAdd_not_classify) (fun e => isEnable_not_classify), classifyInput_trace]
  split_ifs
  · exact filter_isClassify_append _ _ (openLines_isRead env fl)
  · exact filter_isClassify_append _ _ (readText_isRead env fl)

theorem readCalls_loaded {σ : Type} (lib : Library σ) (env : Env) (fl : Flags)
    (h : usageCheck env fl = false) (hl : patternsLoaded lib fl) :
    readCalls (main lib env fl) = if fl.opt_l then (openLines env fl).1 else (readText env fl).1 := by
  obtain ⟨tc, hl⟩ := hl
  unfold readCalls
  rw [filter_input_loaded lib env fl h tc hl Event.isRead
    (fun e => isAdd_not_read) (fun e => isEnable_not_read), classifyInput_trace]
  split_ifs
  · exact filter_isRead_append _ _ (openLines_isRead env fl)
  · exact filter_isRead_append _ _ (readText_isRead env fl)

/-- C3, as stated, fails: the run of `textcat -f=nosuch`, without `-l`, gets past the usage
check, the text file cannot be read, `util.CheckErr` ends the program, and `Classify` is not
called at all. -/
theorem no_classify_after_failed_read :
    usageCheck demoEnv cmdBadFile = false ∧ cmdBadFile.opt_l = false ∧
    classifyCalls (main (engine demoResources) demoEnv cmdBadFile) = [] ∧
    (main (engine demoResources) demoEnv cmdBadFile).exit = Exit.checkErr := by
  decide

/-- C3 (amended): in a run of `main` that gets past the usage check and that
`util.CheckErr` does not end (every pattern file of `-p` is loaded and the input is read
without error): without `-l`, `Classify` is called exactly once, on the entire input text,
unmodified; with `-l`, `Classify` is called exactly once for each line delivered by the
lines reader, in input order, on that line, and there is no other `Classify` call. -/
theorem classify_calls {σ : Type} (lib : Library σ) (env : Env) (fl : Flags)
    (h : usageCheck env fl = false) (hl : patternsLoaded lib fl) :
    (fl.opt_l = false → ∀ text, (readText env fl).2 = some text →
      classifyCalls (main lib env fl) = [Event.classify text]) ∧
    (fl.opt_l = true → ∀ lines, (openLines env fl).2 = some lines →
      classifyCalls (main lib env fl) = lines.map Event.classify) := by
  rw [classifyCalls_loaded lib env fl h hl]
  constructor
  · intro hl text ht
    simp [hl, ht]
  · intro hl lines ht
    simp [hl, ht]

/-- The amended C3 on the runs of `textcat` and `textcat -l`, the text on standard input:
one call on the whole text, and one call for each of the two lines. -/
theorem classify_calls_witness :
    classifyCalls (main (engine demoResources) demoEnv cmdStdin) =
      [Event.classify "ab\ncd\n"] ∧
    classifyCalls (main (engine demoResources) demoEnv cmdLines) =
      ["ab", "cd"].map Event.classify :=
  ⟨(classify_calls (engine demoResources) demoEnv cmdStdin (by decide) ⟨_, rfl⟩).1 rfl
      "ab\ncd\n" rfl,
   (classify_calls (engine demoResources) demoEnv cmdLines (by decide) ⟨_, rfl⟩).2 rfl
      ["ab", "cd"] rfl⟩

/-- C4, as stated, fails: the run of `textcat -p=nosuch` with a pipe as standard input gets
past the usage check with both `-f` and the command-line text absent, the pattern file
cannot be read, `util.CheckErr` ends the program, and standard input is not read. -/
theorem stdin_unread_after_failed_load :
    usageCheck demoEnv cmdStdinBadPattern = false ∧
    cmdStdinBadPattern.opt_f = "" ∧ cmdStdinBadPattern.args = [] ∧
    Event.readStdin ∉ (main (engine demoResources) demoEnv cmdStdinBadPattern).trace := by
  decide

theorem readText_eq_source (env : Env) (fl : Flags) :
    readText env fl = ((textSource fl).reads, (textSource fl).text env fl) := by
  unfold readText textSource
  by_cases hf : fl.opt_f = ""
  · by_cases ha : fl.args = []
    · simp [hf, ha, Source.reads, Source.text]
    · simp [hf, ha, List.length_pos, Source.reads, Source.text]
  · simp [hf, Source.reads, Source.text]

theorem openLines_eq_source (env : Env) (fl : Flags) :
    openLines env fl = ((textSource fl).reads, (textSource fl).lines env fl) := by
  unfold openLines textSource
  by_cases hf : fl.opt_f = ""
  · by_cases ha : fl.args = []
    · simp [hf, ha, Source.reads, Source.lines]
    · simp [hf, ha, List.length_pos, Source.reads, Source.lines]
  · simp [hf, Source.reads, Source.lines]

/-- C4 (amended): in a run of `main` that gets past the usage check and in which every
pattern file of `-p` is loaded without error, the text to classify comes from exactly one
source: the file named by `-f` when `-f` is not empty (text on the command line is then
ignored); otherwise the positional arguments joined with single spaces when there is at
least one; otherwise standard input. Standard input is read if and only if both `-f` and
command-line text are absent. The same rule selects the source with `-l` and without. -/
theorem input_source {σ : Type} (lib : Library σ) (env : Env) (fl : Flags)
    (h : usageCheck env fl = false) (hl : patternsLoaded lib fl) :
    readCalls (main lib env fl) = (textSource fl).reads ∧
    (Event.readStdin ∈ (main lib env fl).trace ↔ fl.opt_f = "" ∧ fl.args = []) ∧
    (fl.opt_l = false → classifyCalls (main lib env fl) =
      (((textSource fl).text env fl).toList).map Event.classify) ∧
    (fl.opt_l = true → classifyCalls (main lib env fl) =
      (((textSource fl).lines env fl).getD []).map Event.classify) := by
  have hr : readCalls (main lib env fl) = (textSource fl).reads := by
    rw [readCalls_loaded lib env fl h hl, readText_eq_source, openLines_eq_source]
    simp
  refine ⟨hr, ?_, ?_, ?_⟩
  · have hmem : Event.readStdin ∈ (main lib env fl).trace ↔
        Event.readStdin ∈ readCalls (main lib env fl) := by
      unfold readCalls
      simp [List.mem_filter, Event.isRead]
    rw [hmem, hr]
    unfold textSource
    by_cases hf : fl.opt_f = ""
    · cases ha : fl.args <;> simp [hf, Source.reads]
    · simp [hf, Source.reads]
  · intro hl0
    rw [classifyCalls_loaded lib env fl h hl, readText_eq_source]
    simp [hl0]
  · intro hl1
    rw [classifyCalls_loaded lib env fl h hl, openLines_eq_source]
    simp [hl1]

/-- The amended C4 on the run of `textcat -b -p=p/kl hello world`: nothing is read, and the
text classified is the two arguments joined with a space. -/
theorem input_source_witness :
    readCalls (main (engine demoResources) demoEnv cmdBoth) = [] ∧
    classifyCalls (main (engine demoResources) demoEnv cmdBoth) =
      [Event.classify "hello world"] :=
  ⟨(input_source (engine demoResources) demoEnv cmdBoth (by decide) ⟨_, rfl⟩).1,
   (input_source (engine demoResources) demoEnv cmdBoth (by decide) ⟨_, rfl⟩).2.2.1 rfl⟩

/-! ## The output of `-l` (C9) -/

/-- C9, as stated, fails: the run of `textcat -l -p=nosuch hello` has one input line,
`hello`, and writes nothing: the pattern file cannot be read and `util.CheckErr` ends the
program before the line is classified. -/
theorem no_output_after_failed_load :
    cmdLinesBadPattern.opt_l = true ∧ usageCheck demoEnv cmdLinesBadPattern = false ∧
    (textSource cmdLinesBadPattern).lines demoEnv cmdLinesBadPattern = some ["hello"] ∧
    (main (engine demoResources) demoEnv cmdLinesBadPattern).stdout = "" := by
  decide

theorem printLine_eq {σ : Type} (lib : Library σ) (tc : σ) (line : String) :
    printLine lib tc line = outputLine (answerText (lib.Classify tc line)) line := by
  unfold printLine outputLine
  cases lib.Classify tc line <;> simp [answerText, String.append_assoc]

/-- C9 (amended): with `-l`, in a run of `main` that gets past the usage check and that
`util.CheckErr` does not end (every pattern file of `-p` is loaded and the lines reader is
opened without error), `main` writes exactly one output line for every input line, in input
order, equal to R followed by a TAB and the input line, where R is the text of the error
when `Classify` returned an error for that line and otherwise the returned labels joined
with commas in the order `Classify` returned them; every line is classified, also after a
line for which `Classify` returned an error. -/
theorem lines_output {σ : Type} (lib : Library σ) (env : Env) (fl : Flags)
    (hopt : fl.opt_l = true) (h : usageCheck env fl = false) (tc : σ)
    (hl : (loadPatterns lib fl).2 = Except.ok tc) (lines : List String)
    (ho : (openLines env fl).2 = some lines) :
    (main lib env fl).stdout =
      written (lines.map (fun line =>
        outputLine (answerText (lib.Classify (enableLanguages lib fl tc).2 line)) line)) ∧
    classifyCalls (main lib env fl) = lines.map Event.classify ∧
    (main lib env fl).exit = Exit.done := by
  refine ⟨?_, ?_, ?_⟩
  · rw [main_loaded lib env fl h tc hl]
    simp only [classifyInput, hopt, if_true]
    revert ho
    generalize openLines env fl = ol
    obtain ⟨ev, t⟩ := ol
    rintro ⟨⟩
    simp only [classifyLines_stdout]
    congr 1
    exact List.map_congr_left (fun line _ => printLine_eq lib _ line)
  · rw [classifyCalls_loaded lib env fl h ⟨tc, hl⟩]
    simp [hopt, ho]
  · rw [main_loaded lib env fl h tc hl]
    simp only [classifyInput, hopt, if_true]
    revert ho
    generalize openLines env fl = ol
    obtain ⟨ev, t⟩ := ol
    rintro ⟨⟩
    rfl

/-- The amended C9 on the run of `textcat -l` with the lines `ab` and `cd` on standard
input: two output lines, each the answer `short`, a TAB and the input line. -/
theorem lines_output_witness :
    (main (engine demoResources) demoEnv cmdLines).stdout = "short\tab\nshort\tcd\n" :=
  (lines_output (engine demoResources) demoEnv cmdLines rfl (by decide) _ rfl
    ["ab", "cd"] rfl).1

/-! ## The distance (C7) -/

theorem distanceLoop_acc (S : Profile) (acc : Nat) (I : Profile) :
    distanceLoop S acc I = acc + distanceLoop S 0 I := by
  induction I generalizing acc with
  | nil => simp [distanceLoop]
  | cons e rest ih =>
    obtain ⟨g, r⟩ := e
    simp only [distanceLoop]
    rw [ih (acc + penalty S g r), ih (0 + penalty S g r)]
    omega

theorem penalty_eq (S : Profile) (g : Ngram) (r : Nat) :
    penalty S g r =
      match S.find? (fun s => s.1 == g) with
      | some s => Int.natAbs ((r : Int) - (s.2 : Int))
      | none => 400 := by
  unfold penalty rankIn
  cases S.find? (fun s => s.1 == g) with
  | none => rfl
  | some s =>
    simp only [Option.map_some']
    split_ifs with hle
    · have h2 : ((r : Int) - (s.2 : Int)) = -((s.2 - r : Nat) : Int) := by omega
      rw [h2, Int.natAbs_neg, Int.natAbs_ofNat]
    · have h2 : ((r : Int) - (s.2 : Int)) = ((r - s.2 : Nat) : Int) := by omega
      rw [h2, Int.natAbs_ofNat]

theorem distance_eq_outOfPlace (I S : Profile) : distance I S = outOfPlace I S := by
  unfold distance outOfPlace
  induction I with
  | nil => rfl
  | cons e rest ih =>
    obtain ⟨g, r⟩ := e
    simp only [distanceLoop, List.map_cons, List.sum_cons]
    rw [distanceLoop_acc, ih, penalty_eq]
    omega

theorem find_filter_of_keep (S : Profile) (keep : Ngram × Nat → Bool) (g : Ngram)
    (h : ∀ s ∈ S, s.1 = g → keep s = true) :
    (S.filter keep).find? (fun s => s.1 == g) = S.find? (fun s => s.1 == g) := by
  induction S with
  | nil => rfl
  | cons s rest ih =>
    have ih1 := ih (fun x hx => h x (List.mem_cons_of_mem _ hx))
    by_cases hs : s.1 = g
    · have hk := h s (List.mem_cons_self _ _) hs
      have hb : (s.1 == g) = true := by simpa using hs
      simp [List.filter, hk, List.find?, hb]
    · have hb : (s.1 == g) = false := by simpa using hs
      cases hk : keep s
      · simp [List.filter, hk, List.find?, hb, ih1]
      · simp [List.filter, hk, List.find?, hb, ih1]

theorem outOfPlace_filter (I S : Profile) (keep : Ngram × Nat → Bool)
    (h : ∀ s ∈ S, (∃ e ∈ I, e.1 = s.1) → keep s = true) :
    outOfPlace I (S.filter keep) = outOfPlace I S := by
  unfold outOfPlace
  congr 1
  apply List.map_congr_left
  intro e he
  rw [find_filter_of_keep S keep e.1 (fun s hs hg => h s hs ⟨e, he, hg.symm⟩)]

/-- C7: for every input profile `I` and every stored profile `S`, the distance that the
classifier computes is the sum, over the n-grams `g` of `I`, of `|rank_I(g) − rank_S(g)|`
when `g` occurs in `S` and of MAX_PROFILE (400) when it does not; that is the distance
with which `classify` scores every enabled entry; and n-grams that occur only in `S`
contribute nothing: leaving them out of `S` does not change the distance. -/
theorem distance_is_out_of_place :
    (∀ I S : Profile, distance I S = outOfPlace I S) ∧
    (∀ (fold : Nat → Nat) (store : Store) (text : String) (e : Entry),
      e ∈ store → e.enabled = true →
        (e, outOfPlace (extract fold e.kind text) e.profile) ∈ scores fold store text) ∧
    (∀ (I S : Profile) (keep : Ngram × Nat → Bool),
      (∀ s ∈ S, (∃ e ∈ I, e.1 = s.1) → keep s = true) →
        distance I (S.filter keep) = distance I S) := by
  refine ⟨distance_eq_outOfPlace, ?_, ?_⟩
  · intro fold store text e he hen
    unfold scores enabledEntries
    rw [List.mem_map]
    exact ⟨e, List.mem_filter.2 ⟨he, hen⟩, by rw [distance_eq_outOfPlace]⟩
  · intro I S keep h
    rw [distance_eq_outOfPlace, distance_eq_outOfPlace, outOfPlace_filter I S keep h]

/-- C7 on an input profile of three n-grams and a stored profile of three: the n-gram
`a` has rank 1 in both (0), `_` has rank 0 and 2 (2), `b` is not stored (400), and the
stored n-gram `e` that the input lacks can be left out. -/
theorem distance_is_out_of_place_witness :
    distance [([95], 0), ([97], 1), ([98], 2)] [([101], 0), ([97], 1), ([95], 2)] = 402 ∧
    distance [([95], 0), ([97], 1), ([98], 2)]
      ([([101], 0), ([97], 1), ([95], 2)].filter (fun s => s.1 != [101])) = 402 :=
  ⟨by decide,
   (distance_is_out_of_place.2.2 [([95], 0), ([97], 1), ([98], 2)]
      [([101], 0), ([97], 1), ([95], 2)] (fun s => s.1 != [101]) (by decide)).trans
     (by decide)⟩

/-! ## The empty text (C6) -/

theorem extract_empty (fold : Nat → Nat) (k : Kind) : extract fold k "" = [] := by
  cases k <;> rfl

theorem tooShort_empty (fold : Nat → Nat) (store : Store) (h : enabledEntries store ≠ []) :
    tooShort fold store "" = true := by
  unfold tooShort
  rw [List.any_eq_true]
  obtain ⟨e, he⟩ := List.exists_mem_of_ne_nil _ h
  exact ⟨e, he, by rw [extract_empty]; decide⟩

theorem classify_empty_short (fold : Nat → Nat) (store : Store)
    (h1 : enabledEntries store ≠ []) :
    classify fold store "" = Except.ok ["short"] := by
  unfold classify
  rw [if_neg h1, if_pos (tooShort_empty fold store h1)]

/-- C6: for every classifier in which at least one profile is enabled, `classify` on the
empty string returns no error and returns the one-element result `["short"]`; so a run of
`main` on an empty text without `-l`, in which `Classify` is called on a classifier with an
enabled profile, takes the no-error branch and prints the single line `short`. -/
theorem empty_text_short :
    (∀ (fold : Nat → Nat) (store : Store), enabledEntries store ≠ [] →
      classify fold store "" = Except.ok ["short"]) ∧
    (∀ (res : Resources) (env : Env) (fl : Flags),
      usageCheck env fl = false → fl.opt_l = false →
      patternsLoaded (engine res) fl →
      (readText env fl).2 = some "" →
      (∀ s ∈ (main (engine res) env fl).steps, s.call.isClassify = true →
        enabledEntries s.tc ≠ []) →
        classifyCalls (main (engine res) env fl) = [Event.classify ""] ∧
        (∀ s ∈ (main (engine res) env fl).steps, s.call.isClassify = true →
          (engine res).Classify s.tc "" = Except.ok ["short"]) ∧
        (main (engine res) env fl).stdout = "short\n" ∧
        (main (engine res) env fl).exit = Exit.done) := by
  refine ⟨classify_empty_short, ?_⟩
  intro res env fl hu hopt hl ht hen
  have hcalls : classifyCalls (main (engine res) env fl) = [Event.classify ""] := by
    rw [classifyCalls_loaded (engine res) env fl hu hl]
    simp [hopt, ht]
  have hshort : ∀ s ∈ (main (engine res) env fl).steps, s.call.isClassify = true →
      (engine res).Classify s.tc "" = Except.ok ["short"] :=
    fun s hs hc => classify_empty_short res.fold s.tc (hen s hs hc)
  refine ⟨hcalls, hshort, ?_⟩
  obtain ⟨tc, hl⟩ := hl
  have hstep : ({ tc := (enableLanguages (engine res) fl tc).2, call := Event.classify "" } :
      Step Store) ∈ (main (engine res) env fl).steps := by
    rw [main_loaded (engine res) env fl hu tc hl]
    simp only [classifyInput, hopt, Bool.false_eq_true, if_false]
    revert ht
    generalize readText env fl = rt
    obtain ⟨ev, t⟩ := rt
    rintro ⟨⟩
    simp [classifyText]
  have hc := hshort _ hstep rfl
  simp only at hc
  rw [main_loaded (engine res) env fl hu tc hl]
  simp only [classifyInput, hopt, Bool.false_eq_true, if_false]
  revert ht
  generalize readText env fl = rt
  obtain ⟨ev, t⟩ := rt
  rintro ⟨⟩
  simp only [classifyText, hc]
  constructor <;> first | rfl | decide

/-- C6 on the run of `textcat -f=in.txt` on an empty file with the default profiles of six
languages: the six profiles of kind utf8 are enabled when `Classify` is called, and the run
prints `short`. -/
theorem empty_text_short_witness :
    classifyCalls (main (engine sixProfiles) demoEnv cmdEmptyFile) = [Event.classify ""] ∧
    (main (engine sixProfiles) demoEnv cmdEmptyFile).stdout = "short\n" ∧
    (main (engine sixProfiles) demoEnv cmdEmptyFile).exit = Exit.done :=
  ⟨(empty_text_short.2 sixProfiles demoEnv cmdEmptyFile
      (by decide) rfl ⟨_, rfl⟩ rfl (by decide)).1,
   (empty_text_short.2 sixProfiles demoEnv cmdEmptyFile
      (by decide) rfl ⟨_, rfl⟩ rfl (by decide)).2.2⟩

end Textcat
